import Mathlib

/-!
Verification of the Reallocation Decision Engine (core subsystem of the
colloseum monorepo).  The Python sources embedded here are
`core/src/evaluator/evaluator.py` and `core/src/optimizer/optimizer.py`.

Numbers are modelled as rationals, Python dicts as insertion-ordered
association lists, and fallible Python operations (division by zero,
exceptions crossing the optimizer pipeline) as `Except` values.
-/

namespace Colloseum

/-- Python division: `a / b` raises `ZeroDivisionError` when `b = 0`. -/
def pyDiv (a b : ℚ) : Except String ℚ :=
  if b = 0 then Except.error "ZeroDivisionError" else Except.ok (a / b)

/-! ### Sorting helpers

`pandas.sort_values(..., ascending=False)` sorts rows by timestamp in
descending order; `numpy.median` sorts ascending.  We use an insertion
sort so that everything reduces in the kernel. -/

/-- Insert an integer into a descending-sorted list. -/
def insertDesc (x : ℤ) : List ℤ → List ℤ
  | [] => [x]
  | y :: ys => if y ≤ x then x :: y :: ys else y :: insertDesc x ys

/-- Sort a list of integers in descending order. -/
def sortDesc (l : List ℤ) : List ℤ := l.foldr insertDesc []

/-- Insert a rational into an ascending-sorted list. -/
def insertAsc (x : ℚ) : List ℚ → List ℚ
  | [] => [x]
  | y :: ys => if x ≤ y then x :: y :: ys else y :: insertAsc x ys

/-- Sort a list of rationals in ascending order. -/
def sortAsc (l : List ℚ) : List ℚ := l.foldr insertAsc []

theorem insertDesc_perm (x : ℤ) (l : List ℤ) : (insertDesc x l).Perm (x :: l) := by
  induction l with
  | nil => simp [insertDesc]
  | cons y ys ih =>
    simp only [insertDesc]
    split
    · exact List.Perm.refl _
    · exact ((ih.cons y).trans (List.Perm.swap _ _ _))

theorem sortDesc_perm (l : List ℤ) : (sortDesc l).Perm l := by
  induction l with
  | nil => simp [sortDesc]
  | cons y ys ih => exact (insertDesc_perm y (sortDesc ys)).trans (ih.cons y)

theorem mem_sortDesc {x : ℤ} {l : List ℤ} : x ∈ sortDesc l ↔ x ∈ l :=
  (sortDesc_perm l).mem_iff

theorem insertDesc_sorted {x : ℤ} {l : List ℤ}
    (h : l.Sorted (· ≥ ·)) : (insertDesc x l).Sorted (· ≥ ·) := by
  induction l with
  | nil => simp [insertDesc]
  | cons y ys ih =>
    rw [List.sorted_cons] at h
    simp only [insertDesc]
    split
    · rename_i hle
      rw [List.sorted_cons]
      constructor
      · intro b hb
        rcases List.mem_cons.mp hb with hb | hb
        · exact hb ▸ hle
        · exact le_trans (h.1 b hb) hle
      · exact List.sorted_cons.mpr h
    · rename_i hgt
      rw [List.sorted_cons]
      constructor
      · intro b hb
        rcases List.mem_cons.mp ((insertDesc_perm x ys).mem_iff.mp hb) with hb | hb
        · exact hb ▸ le_of_lt (lt_of_not_le hgt)
        · exact h.1 b hb
      · exact ih h.2

theorem sortDesc_sorted (l : List ℤ) : (sortDesc l).Sorted (· ≥ ·) := by
  induction l with
  | nil => simp [sortDesc, List.Sorted]
  | cons y ys ih => exact insertDesc_sorted ih

/-- A permutation does not change `List.all`. -/
theorem perm_all_eq {α : Type} {l₁ l₂ : List α} (h : l₁.Perm l₂) (p : α → Bool) :
    l₁.all p = l₂.all p := by
  cases hb : l₂.all p
  · rw [List.all_eq_false] at hb ⊢
    obtain ⟨x, hx, hpx⟩ := hb
    exact ⟨x, h.mem_iff.mpr hx, hpx⟩
  · rw [List.all_eq_true] at hb ⊢
    intro x hx
    exact hb x (h.mem_iff.mp hx)

/-- Applying `find?` over a descending-sorted list returns the largest element
satisfying the predicate, when the predicate selects a maximum. -/
theorem find?_sorted_desc {t : ℤ} {p : ℤ → Bool} :
    ∀ {L : List ℤ}, L.Sorted (· ≥ ·) → t ∈ L → p t = true →
    (∀ x ∈ L, p x = true → x ≤ t) → L.find? p = some t := by
  intro L
  induction L with
  | nil => intro _ ht; cases ht
  | cons y ys ih =>
    intro hs hmem hpt hmax
    rw [List.sorted_cons] at hs
    by_cases hy : y = t
    · subst hy
      simp [List.find?, hpt]
    · have hty : t ∈ ys := by
        rcases List.mem_cons.mp hmem with h | h
        · exact absurd h.symm hy
        · exact h
      have hpy : p y = false := by
        cases hpy : p y
        · rfl
        · have h1 : y ≤ t := hmax y (List.mem_cons_self y ys) hpy
          have h2 : y ≥ t := hs.1 t hty
          exact absurd (le_antisymm h1 h2) hy
      rw [List.find?]
      rw [hpy]
      exact ih hs.2 hty hpt (fun x hx hpx => hmax x (List.mem_cons_of_mem y hx) hpx)

/-! ### Allocation ledger reconciliation

Embeds the per-vault allocation reconstruction loop of
`Evaluator.initialize_vault_info` (evaluator.py lines 143-203):
group ledger rows by timestamp, scan timestamp groups from most recent
to oldest, take the first group in which every amount is strictly
positive as a snapshot; otherwise fall back to per-asset cumulative
sums, keeping only positive totals. -/

structure LedgerRow where
  allocated_pool_id : ℕ
  amount : ℚ
  created_at : ℤ
deriving DecidableEq

/-- All rows of one timestamp group (`vault_allocations[created_at_parsed == ts]`). -/
def groupRows (rows : List LedgerRow) (t : ℤ) : List LedgerRow :=
  rows.filter (fun r => r.created_at = t)

/-- The check `(ts_allocations.amount > 0).all()`. -/
def allPositive (rows : List LedgerRow) (t : ℤ) : Bool :=
  (groupRows rows t).all (fun r => decide (0 < r.amount))

/-- The timestamp of the most recent all-positive group, scanning the
distinct timestamps in descending order (the source sorts the rows
descending and takes `unique()`, yielding the same distinct-descending
timestamp list). -/
def snapshotTs (rows : List LedgerRow) : Option ℤ :=
  (sortDesc ((rows.map (·.created_at)).dedup)).find? (fun t => allPositive rows t)

/-- Sum of the `amount` column. -/
def sumAmounts (rows : List LedgerRow) : ℚ :=
  (rows.map (·.amount)).sum

/-- Reconstructed `current_allocation` for one asset id: snapshot branch
sums the chosen group per asset; the fallback sums the whole ledger per
asset and keeps strictly positive totals. -/
def reconcile_ledger (rows : List LedgerRow) (a : ℕ) : Option ℚ :=
  match snapshotTs rows with
  | some t =>
      let g := (groupRows rows t).filter (fun r => r.allocated_pool_id = a)
      if g.isEmpty then none else some (sumAmounts g)
  | none =>
      let s := sumAmounts (rows.filter (fun r => r.allocated_pool_id = a))
      if 0 < s then some s else none

theorem perm_isEmpty_eq {α : Type} {l₁ l₂ : List α} (h : l₁.Perm l₂) :
    l₁.isEmpty = l₂.isEmpty := by
  have hl := h.length_eq
  cases l₁ <;> cases l₂ <;> simp_all [List.isEmpty]

/-- C6: ledger reconciliation is order-independent: permuting the rows of a
fixed ledger (valid timestamps) leaves the reconstructed allocation map
unchanged at every asset id. -/
theorem reconcile_order_independent (rows rows' : List LedgerRow)
    (h : rows.Perm rows') (a : ℕ) :
    reconcile_ledger rows a = reconcile_ledger rows' a := by
  haveI : IsAntisymm ℤ (· ≥ ·) := ⟨fun a b h1 h2 => le_antisymm h2 h1⟩
  have hgroup : ∀ t, (groupRows rows t).Perm (groupRows rows' t) :=
    fun t => h.filter _
  have hall : (fun t => allPositive rows t) = (fun t => allPositive rows' t) :=
    funext fun t => perm_all_eq (hgroup t) _
  have hts : sortDesc ((rows.map (·.created_at)).dedup)
      = sortDesc ((rows'.map (·.created_at)).dedup) :=
    List.eq_of_perm_of_sorted
      ((sortDesc_perm _).trans (((h.map _).dedup).trans (sortDesc_perm _).symm))
      (sortDesc_sorted _) (sortDesc_sorted _)
  have hsnap : snapshotTs rows = snapshotTs rows' := by
    unfold snapshotTs
    rw [hts, hall]
  unfold reconcile_ledger
  rw [hsnap]
  cases hcase : snapshotTs rows' with
  | some t =>
    have hg : ((groupRows rows t).filter (fun r => r.allocated_pool_id = a)).Perm
        ((groupRows rows' t).filter (fun r => r.allocated_pool_id = a)) :=
      (hgroup t).filter _
    have hemp := perm_isEmpty_eq hg
    have hsum : sumAmounts ((groupRows rows t).filter (fun r => r.allocated_pool_id = a))
        = sumAmounts ((groupRows rows' t).filter (fun r => r.allocated_pool_id = a)) :=
      (hg.map _).sum_eq
    simp only [hemp, hsum]
  | none =>
    have hsum : sumAmounts (rows.filter (fun r => r.allocated_pool_id = a))
        = sumAmounts (rows'.filter (fun r => r.allocated_pool_id = a)) :=
      ((h.filter _).map _).sum_eq
    simp only [hsum]

/-- Witness for C6 at a concrete ledger and permutation. -/
theorem reconcile_order_independent_witness :
    ([⟨1, 5, 1⟩, ⟨1, 10, 2⟩, ⟨2, 20, 2⟩] : List LedgerRow).Perm
      [⟨2, 20, 2⟩, ⟨1, 5, 1⟩, ⟨1, 10, 2⟩] ∧
    reconcile_ledger [⟨1, 5, 1⟩, ⟨1, 10, 2⟩, ⟨2, 20, 2⟩] 1
      = reconcile_ledger [⟨2, 20, 2⟩, ⟨1, 5, 1⟩, ⟨1, 10, 2⟩] 1 :=
  ⟨by decide, reconcile_order_independent _ _ (by decide) 1⟩

/-- C7: when some timestamp group is all-positive, reconciliation returns the
per-asset sums of the most recent such group only, ignoring every other
entry of the ledger. -/
theorem reconcile_snapshot_preference (rows : List LedgerRow) (t : ℤ)
    (hmem : t ∈ rows.map (·.created_at))
    (hpos : allPositive rows t = true)
    (hmax : ∀ t' ∈ rows.map (·.created_at), allPositive rows t' = true → t' ≤ t)
    (a : ℕ) :
    reconcile_ledger rows a =
      (if ((groupRows rows t).filter (fun r => r.allocated_pool_id = a)).isEmpty
       then none
       else some (sumAmounts ((groupRows rows t).filter (fun r => r.allocated_pool_id = a)))) := by
  have hsnap : snapshotTs rows = some t := by
    unfold snapshotTs
    apply find?_sorted_desc (sortDesc_sorted _)
      (mem_sortDesc.mpr (List.mem_dedup.mpr hmem)) hpos
    intro x hx hpx
    exact hmax x (List.mem_dedup.mp (mem_sortDesc.mp hx)) hpx
  unfold reconcile_ledger
  rw [hsnap]

/-- Witness for C7: the spec example, an older entry (asset 1, amount 5) and
a later all-positive group (asset 1 at 10, asset 2 at 20) reconciles to the
later group only. -/
theorem reconcile_snapshot_preference_witness :
    reconcile_ledger [⟨1, 5, 1⟩, ⟨1, 10, 2⟩, ⟨2, 20, 2⟩] 1 = some 10 ∧
    reconcile_ledger [⟨1, 5, 1⟩, ⟨1, 10, 2⟩, ⟨2, 20, 2⟩] 2 = some 20 := by
  have h1 := reconcile_snapshot_preference
    [⟨1, 5, 1⟩, ⟨1, 10, 2⟩, ⟨2, 20, 2⟩] 2 (by decide) (by decide) (by decide) 1
  have h2 := reconcile_snapshot_preference
    [⟨1, 5, 1⟩, ⟨1, 10, 2⟩, ⟨2, 20, 2⟩] 2 (by decide) (by decide) (by decide) 2
  refine ⟨h1.trans ?_, h2.trans ?_⟩ <;> norm_num [groupRows, sumAmounts]

/-- C8: when no timestamp group is all-positive, reconciliation returns, per
asset, the sum of all of that asset's amounts across the whole ledger,
keeping exactly the assets with strictly positive totals. -/
theorem reconcile_cumulative_fallback (rows : List LedgerRow)
    (h : ∀ t ∈ rows.map (·.created_at), allPositive rows t = false)
    (a : ℕ) :
    reconcile_ledger rows a =
      (if 0 < sumAmounts (rows.filter (fun r => r.allocated_pool_id = a))
       then some (sumAmounts (rows.filter (fun r => r.allocated_pool_id = a)))
       else none) := by
  have hsnap : snapshotTs rows = none := by
    unfold snapshotTs
    rw [List.find?_eq_none]
    intro x hx
    simp only [Bool.not_eq_true]
    exact h x (List.mem_dedup.mp (mem_sortDesc.mp hx))
  unfold reconcile_ledger
  rw [hsnap]

/-- Witness for C8 at a ledger with no all-positive group: asset 1 keeps its
positive total, asset 2 (negative total) is dropped. -/
theorem reconcile_cumulative_fallback_witness :
    reconcile_ledger [⟨1, 5, 1⟩, ⟨2, -2, 1⟩, ⟨1, -3, 2⟩, ⟨2, -1, 2⟩] 1 = some 2 ∧
    reconcile_ledger [⟨1, 5, 1⟩, ⟨2, -2, 1⟩, ⟨1, -3, 2⟩, ⟨2, -1, 2⟩] 2 = none := by
  have h1 := reconcile_cumulative_fallback
    [⟨1, 5, 1⟩, ⟨2, -2, 1⟩, ⟨1, -3, 2⟩, ⟨2, -1, 2⟩] (by decide) 1
  have h2 := reconcile_cumulative_fallback
    [⟨1, 5, 1⟩, ⟨2, -2, 1⟩, ⟨1, -3, 2⟩, ⟨2, -1, 2⟩] (by decide) 2
  refine ⟨h1.trans ?_, h2.trans ?_⟩ <;> norm_num [sumAmounts]

/-! ### Utilization and reallocation evaluation

Embeds `Evaluator.calculate_utilization`, `Evaluator.calculate_reallocation_needs`
and the decision skeleton of `Evaluator.evaluate_portfolio` (evaluator.py
lines 255-365 and 454-548).  Allocation dicts are association lists with
distinct keys; `dict.get(k, 0.0)` is `lookupD`. -/

/-- Embeds `allocation.get(pool_id, 0.0)`. -/
def lookupD (l : List (ℕ × ℚ)) (k : ℕ) : ℚ := (l.lookup k).getD 0

/-- Embeds `set(list(current.keys()) + list(target.keys()))` as a deduplicated list. -/
def unionKeys (cur tgt : List (ℕ × ℚ)) : List ℕ :=
  (cur.map (·.1) ++ tgt.map (·.1)).dedup

/-- Embeds `numpy.median`: sort ascending, middle element for odd length, mean of the
two middle elements for even length. -/
def npMedian (l : List ℚ) : ℚ :=
  let s := sortAsc l
  if s.length % 2 = 1 then s.getD (s.length / 2) 0
  else (s.getD (s.length / 2 - 1) 0 + s.getD (s.length / 2) 0) / 2

/-- A per-asset utilization value: the float `current/target`, or `inf` when
the target is zero and the current amount is not. -/
inductive UtilVal where
  | val (q : ℚ)
  | infinite
deriving DecidableEq

structure UtilMetrics where
  overall : ℚ
  by_asset : List (ℕ × UtilVal)
deriving DecidableEq

/-- Embeds `Evaluator.calculate_utilization`: per asset of the key union, ratio
current/target (0 if both zero, inf if only target is zero); `overall` is
the median of the values collected in the division branch only, with
default 1.0 when that list is empty. -/
def calculate_utilization (cur tgt : List (ℕ × ℚ)) : UtilMetrics :=
  let pools := unionKeys cur tgt
  let by_asset := pools.map (fun p =>
    let c := lookupD cur p
    let t := lookupD tgt p
    (p, if t = 0 then (if c = 0 then UtilVal.val 0 else UtilVal.infinite)
        else UtilVal.val (c / t)))
  let vals := pools.filterMap (fun p =>
    let c := lookupD cur p
    let t := lookupD tgt p
    if t = 0 then none else some (c / t))
  { overall := if vals.isEmpty then 1 else npMedian vals
    by_asset := by_asset }

/-- Modelled from the spec wording of the `overall` metric, for comparison
with the code: the median of all finite per-asset ratios — which includes
the 0 ratio of an asset whose current and target amounts are both zero. -/
def spec_overall_utilization (cur tgt : List (ℕ × ℚ)) : ℚ :=
  let vals := (unionKeys cur tgt).filterMap (fun p =>
    let c := lookupD cur p
    let t := lookupD tgt p
    if t = 0 then (if c = 0 then some 0 else none) else some (c / t))
  if vals.isEmpty then 1 else npMedian vals

/-- Embeds `Evaluator.calculate_reallocation_needs`: accumulate asymmetric relative
differences over the key union, skip zero differences, and divide the
accumulated sum by `len(current_allocation)` — a Python `ZeroDivisionError`
when the current allocation dict is empty. -/
def calculate_reallocation_needs (threshold : ℚ) (cur tgt : List (ℕ × ℚ)) :
    Except String (List (ℕ × ℚ) × Bool) :=
  let items := (unionKeys cur tgt).filterMap (fun p =>
    let c := lookupD cur p
    let t := lookupD tgt p
    let diff : ℚ :=
      if t = 0 ∧ c = 0 then 0
      else if t = 0 then 1
      else if c = 0 then 1
      else max ((t - c) / t) ((c - t) / c)
    if diff = 0 then none else some (p, t - c, diff))
  let overall := (items.map (fun x => x.2.2)).sum
  let actions := items.map (fun x => (x.1, x.2.1))
  match pyDiv overall (cur.length : ℚ) with
  | Except.error e => Except.error e
  | Except.ok q => Except.ok (actions, decide (threshold < q))

inductive EvalResult where
  | errorR (msg : String)
  | noReallocation
  | reallocation (actions : List (ℕ × ℚ))
deriving DecidableEq

/-- Decision skeleton of `Evaluator.evaluate_portfolio` for a registered
vault: reject an empty optimizer allocation, gate on overall utilization,
otherwise compute the reallocation needs — converting the uncaught
exception of `calculate_reallocation_needs` into an error-status result
via the surrounding `try/except`. -/
def evaluate_portfolio (threshold : ℚ) (current_allocation : List (ℕ × ℚ))
    (new_allocation : List (ℕ × ℚ)) : EvalResult :=
  if new_allocation.isEmpty then
    EvalResult.errorR "No allocation data in optimization result"
  else
    let overall := (calculate_utilization current_allocation new_allocation).overall
    if 1 - threshold ≤ overall ∧ overall ≤ 1 + threshold then
      EvalResult.noReallocation
    else
      match calculate_reallocation_needs threshold current_allocation new_allocation with
      | Except.error e => EvalResult.errorR e
      | Except.ok (actions, needs) =>
          if needs then EvalResult.reallocation actions else EvalResult.noReallocation

/-- Keyed lookup over a keyed `map` hits the mapped value of the key. -/
theorem lookup_map_self {α β : Type} [DecidableEq α] [BEq α] [LawfulBEq α]
    (f : α → β) (p : α) :
    ∀ (pools : List α), p ∈ pools →
      ((pools.map (fun q => (q, f q))).lookup p) = some (f p) := by
  intro pools
  induction pools with
  | nil => intro h; cases h
  | cons q qs ih =>
    intro hmem
    by_cases h : p = q
    · subst h
      simp [List.lookup]
    · have : p ∈ qs := by
        rcases List.mem_cons.mp hmem with h' | h'
        · exact absurd h' h
        · exact h'
      have hb : (p == q) = false := beq_eq_false_iff_ne.mpr h
      simpa [List.lookup, hb] using ih this

/-- C4 counterexample: with current `{1: 0, 2: 10}` and target `{1: 0, 2: 5}`
the code's overall utilization is 2, but the median of the finite per-asset
ratios (which include the finite ratio 0 of asset 1, whose current and
target are both zero) is 1 — the code drops the both-zero ratios from the
median input, so `overall` is not the median of the finite ratios. -/
theorem calculate_utilization_median_counterexample :
    (calculate_utilization [(1, 0), (2, 10)] [(1, 0), (2, 5)]).overall = 2 ∧
    spec_overall_utilization [(1, 0), (2, 10)] [(1, 0), (2, 5)] = 1 ∧
    (2 : ℚ) ≠ 1 := by
  have hu : unionKeys [(1, 0), (2, 10)] [(1, 0), (2, 5)] = [1, 2] := rfl
  have hc1 : lookupD [(1, 0), (2, 10)] 1 = 0 := rfl
  have hc2 : lookupD [(1, 0), (2, 10)] 2 = 10 := rfl
  have ht1 : lookupD [(1, 0), (2, 5)] 1 = 0 := rfl
  have ht2 : lookupD [(1, 0), (2, 5)] 2 = 5 := rfl
  refine ⟨?_, ?_, by norm_num⟩ <;>
    norm_num [calculate_utilization, spec_overall_utilization, hu, hc1, hc2, ht1, ht2,
      npMedian, sortAsc, insertAsc, List.filterMap_cons]

/-- C4 (amended): for every pair of allocation maps, each asset of the key
union gets the ratio current/target (0 if both are zero, inf if only the
target is zero), and `overall` is the median of the ratios of the assets
with nonzero target only — both-zero assets are excluded from the median
input — with default 1.0 when no such asset exists. -/
theorem calculate_utilization_spec (cur tgt : List (ℕ × ℚ)) :
    (∀ p ∈ unionKeys cur tgt,
      ((calculate_utilization cur tgt).by_asset.lookup p) =
        some (if lookupD tgt p = 0 then
                (if lookupD cur p = 0 then UtilVal.val 0 else UtilVal.infinite)
              else UtilVal.val (lookupD cur p / lookupD tgt p))) ∧
    (calculate_utilization cur tgt).overall =
      (let vals := (unionKeys cur tgt).filterMap (fun p =>
          if lookupD tgt p = 0 then none else some (lookupD cur p / lookupD tgt p))
       if vals.isEmpty then (1 : ℚ) else npMedian vals) := by
  constructor
  · intro p hp
    exact lookup_map_self
      (fun p => if lookupD tgt p = 0 then
          (if lookupD cur p = 0 then UtilVal.val 0 else UtilVal.infinite)
        else UtilVal.val (lookupD cur p / lookupD tgt p)) p _ hp
  · rfl

/-- Witness for C4 at current `{1: 100}`, target `{1: 200}`. -/
theorem calculate_utilization_spec_witness :
    ((calculate_utilization [(1, 100)] [(1, 200)]).by_asset.lookup 1)
      = some (UtilVal.val (1 / 2)) ∧
    (calculate_utilization [(1, 100)] [(1, 200)]).overall = 1 / 2 := by
  have h := calculate_utilization_spec [(1, 100)] [(1, 200)]
  have h1 := h.1 1 (by decide)
  refine ⟨h1.trans ?_, h.2.trans ?_⟩ <;>
    norm_num [lookupD, List.lookup, npMedian, sortAsc, insertAsc, unionKeys,
      List.filterMap_cons]

/-- C10: `calculate_reallocation_needs` divides by `len(current_allocation)`
without a guard, so every call with an empty current allocation raises
`ZeroDivisionError` instead of returning a result; `evaluate_portfolio`
catches the exception into a status-error outcome, so an empty current
allocation never produces a reallocation plan. -/
theorem calculate_reallocation_needs_empty_current (threshold : ℚ)
    (tgt : List (ℕ × ℚ)) :
    calculate_reallocation_needs threshold [] tgt = Except.error "ZeroDivisionError" ∧
    (∀ actions, evaluate_portfolio threshold [] tgt ≠ EvalResult.reallocation actions) ∧
    ((tgt.isEmpty = false) →
      ¬ (1 - threshold ≤ (calculate_utilization [] tgt).overall ∧
          (calculate_utilization [] tgt).overall ≤ 1 + threshold) →
      evaluate_portfolio threshold [] tgt = EvalResult.errorR "ZeroDivisionError") := by
  have hcalc : calculate_reallocation_needs threshold [] tgt
      = Except.error "ZeroDivisionError" := by
    simp [calculate_reallocation_needs, pyDiv]
  have heval : evaluate_portfolio threshold [] tgt =
      (if tgt.isEmpty then EvalResult.errorR "No allocation data in optimization result"
       else if 1 - threshold ≤ (calculate_utilization [] tgt).overall ∧
            (calculate_utilization [] tgt).overall ≤ 1 + threshold then
         EvalResult.noReallocation
       else EvalResult.errorR "ZeroDivisionError") := by
    unfold evaluate_portfolio
    rw [hcalc]
  refine ⟨hcalc, ?_, ?_⟩
  · intro actions
    rw [heval]
    split
    · simp
    · split
      · simp
      · simp
  · intro hne hgate
    rw [heval, if_neg, if_neg hgate]
    simp [hne]

/-- Witness for C10 at target `{1: 1}` and threshold 0. -/
theorem calculate_reallocation_needs_empty_current_witness :
    calculate_reallocation_needs 0 [] [(1, 1)] = Except.error "ZeroDivisionError" ∧
    evaluate_portfolio 0 [] [(1, 1)] = EvalResult.errorR "ZeroDivisionError" := by
  have h := calculate_reallocation_needs_empty_current 0 [(1, 1)]
  refine ⟨h.1, h.2.2 (by decide) ?_⟩
  norm_num [calculate_utilization, unionKeys, lookupD, List.lookup, npMedian,
    sortAsc, insertAsc, List.filterMap_cons]

/-! ### Liquidity checking and reallocation processing

Embeds `Evaluator.check_liquidity` and `Evaluator.process_reallocation`
(evaluator.py lines 367-452 and 550-645).  The per-pool liquidity lookup
is the external RPC capability (a placeholder `available_liquidity = amount`
in the source, see `placeholder_lookup`); it is a parameter here, with
`Except.error` playing the role of the `try/except` failure branch. -/

structure LiquidityDetail where
  pool_id : ℕ
  requested : ℚ
  available : ℚ
  fully_matched : Bool
  has_error : Bool
deriving DecidableEq

structure LiquidityResult where
  has_liquidity : Bool
  fully_matched : Bool
  total_withdraw : ℚ
  total_deposit : ℚ
  liquidity_shortfall : ℚ
  details : List LiquidityDetail
deriving DecidableEq

/-- The withdrawal loop of `check_liquidity`, threading the accumulator
`(has_liquidity, fully_matched, shortfall, details)`. -/
def liquidityLoop (lookup : ℕ → ℚ → Except String ℚ) :
    List (ℕ × ℚ) → Bool → Bool → ℚ → List LiquidityDetail →
      Bool × Bool × ℚ × List LiquidityDetail
  | [], hl, fm, sf, ds => (hl, fm, sf, ds)
  | a :: rest, hl, fm, sf, ds =>
      let amount := |a.2|
      match lookup a.1 amount with
      | Except.ok available =>
          if available < amount then
            liquidityLoop lookup rest hl false (sf + (amount - available))
              (ds ++ [⟨a.1, amount, available, decide (amount ≤ available), false⟩])
          else
            liquidityLoop lookup rest hl fm sf
              (ds ++ [⟨a.1, amount, available, decide (amount ≤ available), false⟩])
      | Except.error _ =>
          liquidityLoop lookup rest false false sf
            (ds ++ [⟨a.1, amount, 0, false, true⟩])

/-- Embeds `Evaluator.check_liquidity`: split actions into withdrawals (negative
delta) and deposits (positive delta), probe liquidity per withdrawal, and
report the assessment; the returned shortfall is `0.0` when fully matched. -/
def check_liquidity (lookup : ℕ → ℚ → Except String ℚ)
    (reallocation_actions : List (ℕ × ℚ)) : LiquidityResult :=
  let withdraw_actions := reallocation_actions.filter (fun a => a.2 < 0)
  let deposit_actions := reallocation_actions.filter (fun a => 0 < a.2)
  let total_withdraw := (withdraw_actions.map (fun a => |a.2|)).sum
  let total_deposit := (deposit_actions.map (fun a => a.2)).sum
  let st := liquidityLoop lookup withdraw_actions true true 0 []
  { has_liquidity := st.1
    fully_matched := st.2.1
    total_withdraw := total_withdraw
    total_deposit := total_deposit
    liquidity_shortfall := if st.2.1 then 0 else st.2.2.1
    details := st.2.2.2 }

/-- The source's placeholder for the liquidity RPC: every pool reports
exactly the requested amount as available. -/
def placeholder_lookup : ℕ → ℚ → Except String ℚ :=
  fun _ amount => Except.ok amount

structure ReallocSummary where
  status : String
  reallocation_actions : List (ℕ × ℚ)
  liquidity_metrics : LiquidityResult
  shortfall_reported : Option ℚ
  total_reallocation_amount : ℚ
deriving DecidableEq

/-- Embeds `Evaluator.process_reallocation`: abort with an error outcome (carrying
the liquidity result) when `has_liquidity` is false; otherwise emit the
summary with status MATCHED or PARTIAL and the total absolute delta. -/
def process_reallocation (lookup : ℕ → ℚ → Except String ℚ)
    (reallocation_actions : List (ℕ × ℚ)) : Except LiquidityResult ReallocSummary :=
  let lr := check_liquidity lookup reallocation_actions
  if lr.has_liquidity = false then Except.error lr
  else
    Except.ok
      { status := if lr.fully_matched then "MATCHED" else "PARTIAL"
        reallocation_actions := reallocation_actions
        liquidity_metrics := lr
        shortfall_reported := if lr.fully_matched then none else some lr.liquidity_shortfall
        total_reallocation_amount := (reallocation_actions.map (fun a => |a.2|)).sum }

/-- Whether the liquidity lookup for an action fails. -/
def lookupFails (lookup : ℕ → ℚ → Except String ℚ) (a : ℕ × ℚ) : Bool :=
  match lookup a.1 |a.2| with
  | Except.ok _ => false
  | Except.error _ => true

theorem liquidityLoop_has_liquidity (lookup : ℕ → ℚ → Except String ℚ) :
    ∀ (ws : List (ℕ × ℚ)) (hl fm : Bool) (sf : ℚ) (ds : List LiquidityDetail),
      (liquidityLoop lookup ws hl fm sf ds).1
        = (hl && !(ws.any (lookupFails lookup))) := by
  intro ws
  induction ws with
  | nil => intro hl fm sf ds; simp [liquidityLoop]
  | cons a rest ih =>
    intro hl fm sf ds
    simp only [liquidityLoop, List.any_cons]
    cases hlk : lookup a.1 |a.2| with
    | ok available =>
      simp only [hlk]
      split <;> rw [ih] <;> simp [lookupFails, hlk]
    | error e =>
      simp only [hlk]
      rw [ih]
      simp [lookupFails, hlk]

theorem liquidityLoop_shortfall (lookup : ℕ → ℚ → Except String ℚ)
    (avail : ℕ → ℚ → ℚ) (hav : ∀ p q, lookup p q = Except.ok (avail p q)) :
    ∀ (ws : List (ℕ × ℚ)) (hl fm : Bool) (sf : ℚ) (ds : List LiquidityDetail),
      (liquidityLoop lookup ws hl fm sf ds).2.2.1
        = sf + ((ws.map (fun a => max 0 (|a.2| - avail a.1 |a.2|))).sum) := by
  intro ws
  induction ws with
  | nil => intro hl fm sf ds; simp [liquidityLoop]
  | cons a rest ih =>
    intro hl fm sf ds
    simp only [liquidityLoop, hav, List.map_cons, List.sum_cons]
    split
    · rename_i hlt
      rw [ih]
      have : max 0 (|a.2| - avail a.1 |a.2|) = |a.2| - avail a.1 |a.2| := by
        rw [max_eq_right]
        linarith
      rw [this]
      ring
    · rename_i hge
      rw [ih]
      have : max 0 (|a.2| - avail a.1 |a.2|) = 0 := by
        rw [max_eq_left]
        linarith [not_lt.mp hge]
      rw [this]
      ring

theorem liquidityLoop_fully_matched (lookup : ℕ → ℚ → Except String ℚ)
    (avail : ℕ → ℚ → ℚ) (hav : ∀ p q, lookup p q = Except.ok (avail p q)) :
    ∀ (ws : List (ℕ × ℚ)) (hl fm : Bool) (sf : ℚ) (ds : List LiquidityDetail),
      (liquidityLoop lookup ws hl fm sf ds).2.1
        = (fm && ws.all (fun a => decide (|a.2| ≤ avail a.1 |a.2|))) := by
  intro ws
  induction ws with
  | nil => intro hl fm sf ds; simp [liquidityLoop]
  | cons a rest ih =>
    intro hl fm sf ds
    simp only [liquidityLoop, hav, List.all_cons]
    split
    · rename_i hlt
      rw [ih]
      have : decide (|a.2| ≤ avail a.1 |a.2|) = false := by
        simp [not_le.mpr hlt]
      simp [this]
    · rename_i hge
      rw [ih]
      have : decide (|a.2| ≤ avail a.1 |a.2|) = true := by
        simp [not_lt.mp hge]
      simp [this]

theorem sum_nonneg_eq_zero_iff {l : List ℚ} (h : ∀ x ∈ l, 0 ≤ x) :
    l.sum = 0 ↔ ∀ x ∈ l, x = 0 := by
  induction l with
  | nil => simp
  | cons a rest ih =>
    have ha : 0 ≤ a := h a (List.mem_cons_self a rest)
    have hr : ∀ x ∈ rest, 0 ≤ x := fun x hx => h x (List.mem_cons_of_mem a hx)
    have hsum : 0 ≤ rest.sum := List.sum_nonneg hr
    rw [List.sum_cons]
    constructor
    · intro h0
      have h1 : a = 0 := by linarith
      have h2 : rest.sum = 0 := by linarith
      intro x hx
      rcases List.mem_cons.mp hx with hx | hx
      · exact hx ▸ h1
      · exact (ih hr).mp h2 x hx
    · intro hall
      rw [hall a (List.mem_cons_self a rest), (ih hr).mpr
        (fun x hx => hall x (List.mem_cons_of_mem a hx))]
      ring

theorem lookupFails_iff (lookup : ℕ → ℚ → Except String ℚ) (a : ℕ × ℚ) :
    lookupFails lookup a = true ↔ ∃ e, lookup a.1 |a.2| = Except.error e := by
  unfold lookupFails
  cases h : lookup a.1 |a.2| with
  | ok v => simp [h]
  | error e => simp [h]

/-- C9: `check_liquidity` reports `has_liquidity = false` exactly when some
withdrawal's liquidity lookup fails (never merely for insufficient funds);
when every lookup succeeds, the returned shortfall is the sum of
`max(0, requested - available)` over the withdrawals, `fully_matched` holds
iff that total shortfall is zero, and `process_reallocation` emits a summary
with status MATCHED iff `fully_matched` (PARTIAL otherwise) whose
`total_reallocation_amount` is the sum of the absolute deltas. -/
theorem check_liquidity_process_reallocation_spec
    (lookup : ℕ → ℚ → Except String ℚ) (actions : List (ℕ × ℚ)) :
    (((check_liquidity lookup actions).has_liquidity = false) ↔
      ∃ a ∈ actions.filter (fun x => x.2 < 0), ∃ e, lookup a.1 |a.2| = Except.error e) ∧
    (∀ avail : ℕ → ℚ → ℚ, (∀ p q, lookup p q = Except.ok (avail p q)) →
      ((check_liquidity lookup actions).liquidity_shortfall =
        ((actions.filter (fun x => x.2 < 0)).map
          (fun a => max 0 (|a.2| - avail a.1 |a.2|))).sum) ∧
      ((check_liquidity lookup actions).fully_matched = true ↔
        ((actions.filter (fun x => x.2 < 0)).map
          (fun a => max 0 (|a.2| - avail a.1 |a.2|))).sum = 0) ∧
      ∃ s, process_reallocation lookup actions = Except.ok s ∧
        s.status = (if (check_liquidity lookup actions).fully_matched
                    then "MATCHED" else "PARTIAL") ∧
        s.total_reallocation_amount = (actions.map (fun a => |a.2|)).sum) := by
  have hHL : (check_liquidity lookup actions).has_liquidity
      = !((actions.filter (fun a => a.2 < 0)).any (lookupFails lookup)) := by
    simp only [check_liquidity]
    rw [liquidityLoop_has_liquidity]
    simp
  constructor
  · rw [hHL]
    simp only [Bool.not_eq_false', List.any_eq_true, lookupFails_iff]
  · intro avail hav
    have hFM : (check_liquidity lookup actions).fully_matched
        = (actions.filter (fun a => a.2 < 0)).all
            (fun a => decide (|a.2| ≤ avail a.1 |a.2|)) := by
      simp only [check_liquidity]
      rw [liquidityLoop_fully_matched lookup avail hav]
      simp
    have hSF0 : (liquidityLoop lookup (actions.filter (fun a => a.2 < 0)) true true 0 []).2.2.1
        = ((actions.filter (fun x => x.2 < 0)).map
            (fun a => max 0 (|a.2| - avail a.1 |a.2|))).sum := by
      rw [liquidityLoop_shortfall lookup avail hav]
      ring
    have hterms : ∀ x ∈ (actions.filter (fun x => x.2 < 0)).map
        (fun a => max 0 (|a.2| - avail a.1 |a.2|)), 0 ≤ x := by
      intro x hx
      obtain ⟨a, _, rfl⟩ := List.mem_map.mp hx
      exact le_max_left 0 _
    have hSiff : ((actions.filter (fun x => x.2 < 0)).map
        (fun a => max 0 (|a.2| - avail a.1 |a.2|))).sum = 0 ↔
        ∀ a ∈ actions.filter (fun x => x.2 < 0), |a.2| ≤ avail a.1 |a.2| := by
      rw [sum_nonneg_eq_zero_iff hterms]
      constructor
      · intro h a ha
        have := h _ (List.mem_map.mpr ⟨a, ha, rfl⟩)
        have hle : |a.2| - avail a.1 |a.2| ≤ 0 := by
          by_contra hgt
          push_neg at hgt
          rw [max_eq_right (le_of_lt hgt)] at this
          linarith
        linarith
      · intro h x hx
        obtain ⟨a, ha, rfl⟩ := List.mem_map.mp hx
        rw [max_eq_left]
        linarith [h a ha]
    have hfm_iff : (check_liquidity lookup actions).fully_matched = true ↔
        ((actions.filter (fun x => x.2 < 0)).map
          (fun a => max 0 (|a.2| - avail a.1 |a.2|))).sum = 0 := by
      rw [hFM, hSiff, List.all_eq_true]
      constructor
      · intro h a ha
        exact decide_eq_true_eq.mp (h a ha)
      · intro h a ha
        exact decide_eq_true_eq.mpr (h a ha)
    refine ⟨?_, hfm_iff, ?_⟩
    · have hSF : (check_liquidity lookup actions).liquidity_shortfall
          = (if (check_liquidity lookup actions).fully_matched then (0 : ℚ)
             else (liquidityLoop lookup (actions.filter (fun a => a.2 < 0)) true true 0 []).2.2.1) := by
        simp only [check_liquidity]
      rw [hSF, hSF0]
      cases hf : (check_liquidity lookup actions).fully_matched
      · simp
      · have := hfm_iff.mp hf
        simp [this]
    · have hok : (check_liquidity lookup actions).has_liquidity = true := by
        rw [hHL]
        simp only [Bool.not_eq_true']
        rw [List.any_eq_false]
        intro a _
        simp [lookupFails, hav]
      have hproc : process_reallocation lookup actions = Except.ok
          { status := if (check_liquidity lookup actions).fully_matched
              then "MATCHED" else "PARTIAL"
            reallocation_actions := actions
            liquidity_metrics := check_liquidity lookup actions
            shortfall_reported := if (check_liquidity lookup actions).fully_matched then none
              else some (check_liquidity lookup actions).liquidity_shortfall
            total_reallocation_amount := (actions.map (fun a => |a.2|)).sum } := by
        simp only [process_reallocation]
        rw [hok]
        rfl
      exact ⟨_, hproc, rfl, rfl⟩

/-- Witness for C9: a withdrawal of 5 and a deposit of 3 under a lookup that
reports half the requested amount available: has_liquidity holds, the
shortfall is 5/2, the summary is PARTIAL with total amount 8. -/
theorem check_liquidity_process_reallocation_spec_witness :
    (check_liquidity (fun _ q => Except.ok (q / 2)) [(1, -5), (2, 3)]).has_liquidity = true ∧
    (check_liquidity (fun _ q => Except.ok (q / 2)) [(1, -5), (2, 3)]).liquidity_shortfall = 5 / 2 ∧
    (check_liquidity (fun _ q => Except.ok (q / 2)) [(1, -5), (2, 3)]).fully_matched = false ∧
    ∃ s, process_reallocation (fun _ q => Except.ok (q / 2)) [(1, -5), (2, 3)] = Except.ok s ∧
      s.status = "PARTIAL" ∧ s.total_reallocation_amount = 8 := by
  have h := check_liquidity_process_reallocation_spec
    (fun _ q => Except.ok (q / 2)) [(1, -5), (2, 3)]
  have h2 := h.2 (fun _ q => q / 2) (fun _ _ => rfl)
  have hfilter : ([(1, -5), (2, 3)] : List (ℕ × ℚ)).filter (fun x => x.2 < 0)
      = [(1, -5)] := by
    norm_num [List.filter]
  have hsum : ((([(1, -5)] : List (ℕ × ℚ))).map
      (fun a => max 0 (|a.2| - |a.2| / 2))).sum = 5 / 2 := by
    norm_num
  rw [hfilter] at h2
  have hfm : (check_liquidity (fun _ q => Except.ok (q / 2)) [(1, -5), (2, 3)]).fully_matched
      = false := by
    cases hf : (check_liquidity (fun _ q => Except.ok (q / 2)) [(1, -5), (2, 3)]).fully_matched
    · rfl
    · have := h2.2.1.mp hf
      rw [hsum] at this
      norm_num at this
  have hhl : (check_liquidity (fun _ q => Except.ok (q / 2)) [(1, -5), (2, 3)]).has_liquidity
      = true := by
    cases hh : (check_liquidity (fun _ q => Except.ok (q / 2)) [(1, -5), (2, 3)]).has_liquidity
    · exfalso
      obtain ⟨a, _, e, he⟩ := h.1.mp hh
      exact Except.noConfusion he
    · rfl
  obtain ⟨s, hs, hstat, htot⟩ := h2.2.2
  refine ⟨hhl, ?_, hfm, s, hs, ?_, ?_⟩
  · rw [h2.1, hsum]
  · rw [hstat, hfm]
    simp
  · rw [htot]
    norm_num

/-! ### Optimizer: adaptor constraint application

Embeds `Optimizer._apply_adaptor_constraints` and `Optimizer._is_pool_in_adaptor`
(optimizer.py lines 297-309 and 716-763).  Weight dicts are association
lists keyed by pool id; constraints map an adaptor name to
`[min_weight, max_weight]`. -/

/-- Embeds `Optimizer._is_pool_in_adaptor`: the source placeholder returns `True`
for every pool/adaptor pair. -/
def is_pool_in_adaptor (pool_id : ℕ) (adaptor : String) : Bool := true

/-- Embeds `d[k] = d.get(k, 0.0) + w` on an insertion-ordered dict. -/
def addWeight (l : List (String × ℚ)) (k : String) (w : ℚ) : List (String × ℚ) :=
  match l.lookup k with
  | some _ => l.map (fun kv => if kv.1 = k then (kv.1, kv.2 + w) else kv)
  | none => l ++ [(k, w)]

/-- The grouping loop of `_apply_adaptor_constraints`: for each pool weight
and each adaptor, accumulate the weight when the pool belongs to the
adaptor. -/
def adaptorWeights (weights : List (ℕ × ℚ)) (adaptors : List String) :
    List (String × ℚ) :=
  weights.foldl (fun acc pw =>
    adaptors.foldl (fun acc2 a =>
      if is_pool_in_adaptor pw.1 a then addWeight acc2 a pw.2 else acc2) acc) []

/-- The scaling pass of `_apply_adaptor_constraints`: iterate the grouped
`(adaptor, current_weight)` entries in insertion order; when a constraint
caps a summed weight that exceeds `max_weight`, scale every member pool's
weight by `max_weight / current_weight` (a Python float division). -/
def scalePass (constraints : List (String × ℚ × ℚ)) :
    List (String × ℚ) → List (ℕ × ℚ) → Except String (List (ℕ × ℚ))
  | [], ws => Except.ok ws
  | e :: rest, ws =>
      match constraints.lookup e.1 with
      | some c =>
          if c.2 < e.2 then
            match pyDiv c.2 e.2 with
            | Except.error err => Except.error err
            | Except.ok scale =>
                scalePass constraints rest
                  (ws.map (fun pw =>
                    if is_pool_in_adaptor pw.1 e.1 then (pw.1, pw.2 * scale) else pw))
          else scalePass constraints rest ws
      | none => scalePass constraints rest ws

/-- Embeds `Optimizer._apply_adaptor_constraints`: group, scale, then renormalize
all weights to sum to 1 whenever the post-scaling total is positive. -/
def apply_adaptor_constraints (weights : List (ℕ × ℚ))
    (constraints : List (String × ℚ × ℚ)) (adaptors : List String) :
    Except String (List (ℕ × ℚ)) :=
  match scalePass constraints (adaptorWeights weights adaptors) weights with
  | Except.error e => Except.error e
  | Except.ok ws =>
      let total := (ws.map (·.2)).sum
      Except.ok (if 0 < total then ws.map (fun pw => (pw.1, pw.2 / total)) else ws)

/-- Summed weight of an adaptor's member pools in a weight dict. -/
def memberSum (ws : List (ℕ × ℚ)) (a : String) : ℚ :=
  ((ws.filter (fun pw => is_pool_in_adaptor pw.1 a)).map (·.2)).sum

/-- C1 counterexample: one pool of weight 1 and one adaptor capped at 1/2.
The scaling pass brings the adaptor's summed weight down to 1/2, but the
final renormalization scales it straight back to 1, violating the claimed
cap bound `1 ≤ 1/2 + 1e-6` even though the input total weight is 1 > 0. -/
theorem apply_adaptor_constraints_cap_counterexample :
    apply_adaptor_constraints [(1, 1)] [("X", 0, 1/2)] ["X"] = Except.ok [(1, 1)] ∧
    memberSum [(1, 1)] "X" = 1 ∧
    ¬ ((1 : ℚ) ≤ 1/2 + 1/1000000) := by
  refine ⟨?_, ?_, by norm_num⟩
  · norm_num [apply_adaptor_constraints, adaptorWeights, addWeight, scalePass,
      is_pool_in_adaptor, pyDiv, List.lookup]
  · norm_num [memberSum, is_pool_in_adaptor]

theorem lookup_cons_of_append {α β : Type} [BEq α] (l m : List (α × β)) (k : α) :
    (l ++ m).lookup k = (match l.lookup k with
      | some v => some v
      | none => m.lookup k) := by
  induction l with
  | nil => simp [List.lookup]
  | cons kv rest ih =>
    simp only [List.cons_append, List.lookup]
    cases hb : k == kv.1
    · simpa [hb] using ih
    · simp [hb]

theorem lookup_map_upd (k k' : String) (w : ℚ) :
    ∀ (l : List (String × ℚ)),
      ((l.map (fun kv => if kv.1 = k then (kv.1, kv.2 + w) else kv)).lookup k')
        = (if k' = k then (l.lookup k).map (· + w) else l.lookup k') := by
  intro l
  induction l with
  | nil => by_cases h : k' = k <;> simp [h, List.lookup]
  | cons kv rest ih =>
    simp only [List.map_cons]
    by_cases h1 : kv.1 = k
    · rw [if_pos h1]
      by_cases h2 : k' = k
      · subst h2
        have hb : (k' == kv.1) = true := beq_iff_eq.mpr h1.symm
        simp only [List.lookup, hb, if_pos rfl]
        simp
      · have hb : (k' == kv.1) = false :=
          beq_eq_false_iff_ne.mpr (fun he => h2 (he.trans h1))
        simp only [List.lookup, hb, if_neg h2]
        simpa [h2] using ih
    · rw [if_neg h1]
      by_cases h2 : k' = k
      · subst h2
        have hb : (k' == kv.1) = false :=
          beq_eq_false_iff_ne.mpr (fun he => h1 he.symm)
        simp only [List.lookup, hb, if_pos rfl]
        simpa using ih
      · by_cases h3 : k' = kv.1
        · have hb : (k' == kv.1) = true := beq_iff_eq.mpr h3
          simp only [List.lookup, hb, if_neg h2]
        · have hb : (k' == kv.1) = false := beq_eq_false_iff_ne.mpr h3
          simp only [List.lookup, hb, if_neg h2]
          simpa [h2] using ih

theorem lookup_addWeight (l : List (String × ℚ)) (k k' : String) (w : ℚ) :
    (addWeight l k w).lookup k'
      = (if k' = k then some ((l.lookup k').getD 0 + w) else l.lookup k') := by
  unfold addWeight
  cases hlk : l.lookup k with
  | some v =>
    rw [lookup_map_upd]
    by_cases h : k' = k
    · subst h
      simp [hlk]
    · simp [h]
  | none =>
    rw [lookup_cons_of_append]
    by_cases h : k' = k
    · subst h
      have hb : (k' == k') = true := beq_iff_eq.mpr rfl
      simp [hlk, List.lookup, hb]
    · have hb : (k' == k) = false := beq_eq_false_iff_ne.mpr h
      cases hlk' : l.lookup k' <;> simp [List.lookup, hb, h]

theorem lookup_inner_fold_plain (w : ℚ) (k : String) :
    ∀ (adaptors : List String) (acc : List (String × ℚ)),
      ((adaptors.foldl (fun acc2 a => addWeight acc2 a w) acc).lookup k)
        = (if k ∈ adaptors
           then some ((acc.lookup k).getD 0 + (adaptors.count k : ℚ) * w)
           else acc.lookup k) := by
  intro adaptors
  induction adaptors with
  | nil => intro acc; simp
  | cons a rest ih =>
    intro acc
    rw [List.foldl_cons, ih (addWeight acc a w)]
    by_cases hk : k ∈ rest
    · rw [if_pos hk, if_pos (List.mem_cons_of_mem a hk)]
      rw [lookup_addWeight]
      by_cases hka : k = a
      · subst hka
        have hc : ((k :: rest).count k : ℚ) = (rest.count k : ℚ) + 1 := by
          rw [List.count_cons_self]
          push_cast
          ring
        rw [hc, if_pos rfl]
        simp only [Option.getD_some]
        congr 1
        ring
      · have hc : ((a :: rest).count k : ℚ) = (rest.count k : ℚ) := by
          rw [List.count_cons_of_ne hka]
        rw [hc, if_neg hka]
    · rw [if_neg hk]
      rw [lookup_addWeight]
      by_cases hka : k = a
      · subst hka
        rw [if_pos (List.mem_cons_self k rest), if_pos rfl]
        have hc : ((k :: rest).count k : ℚ) = (rest.count k : ℚ) + 1 := by
          rw [List.count_cons_self]
          push_cast
          ring
        have hc0 : (rest.count k : ℚ) = 0 := by
          rw [List.count_eq_zero_of_not_mem hk]
          norm_num
        rw [hc, hc0]
        congr 1
        ring
      · have hmem : k ∉ a :: rest := by
          intro hc
          rcases List.mem_cons.mp hc with hc | hc
          · exact hka hc
          · exact hk hc
        rw [if_neg hmem, if_neg hka]

theorem lookup_adaptorWeights (adaptors : List String) (k : String) (hk : k ∈ adaptors) :
    ∀ (weights : List (ℕ × ℚ)), weights ≠ [] →
      (adaptorWeights weights adaptors).lookup k
        = some ((adaptors.count k : ℚ) * (weights.map (·.2)).sum) := by
  have hfun : (fun (acc : List (String × ℚ)) (pw : ℕ × ℚ) =>
        adaptors.foldl (fun acc2 a =>
          if is_pool_in_adaptor pw.1 a then addWeight acc2 a pw.2 else acc2) acc)
      = (fun acc pw => adaptors.foldl (fun acc2 a => addWeight acc2 a pw.2) acc) := rfl
  have aux : ∀ (weights : List (ℕ × ℚ)), weights ≠ [] →
      ∀ (acc : List (String × ℚ)),
      ((weights.foldl (fun acc pw =>
          adaptors.foldl (fun acc2 a => addWeight acc2 a pw.2) acc) acc).lookup k)
        = some ((acc.lookup k).getD 0
            + (adaptors.count k : ℚ) * (weights.map (·.2)).sum) := by
    intro weights
    induction weights with
    | nil => intro h; exact absurd rfl h
    | cons pw rest ih =>
      intro _ acc
      simp only [List.foldl_cons]
      by_cases hrest : rest = []
      · subst hrest
        simp only [List.foldl_nil]
        rw [lookup_inner_fold_plain, if_pos hk]
        simp only [List.map_cons, List.map_nil, List.sum_cons, List.sum_nil]
        congr 1
        ring
      · rw [ih hrest]
        rw [lookup_inner_fold_plain, if_pos hk]
        simp only [Option.getD_some, List.map_cons, List.sum_cons]
        congr 1
        ring
  intro weights hne
  unfold adaptorWeights
  rw [hfun, aux weights hne []]
  simp

theorem mem_of_lookup_eq_some {α β : Type} [BEq α] [LawfulBEq α]
    {l : List (α × β)} {k : α} {v : β} (h : l.lookup k = some v) : (k, v) ∈ l := by
  induction l with
  | nil => exact absurd h (by simp [List.lookup])
  | cons kv rest ih =>
    rw [List.lookup] at h
    cases hb : k == kv.1
    · rw [hb] at h
      exact List.mem_cons_of_mem kv (ih h)
    · rw [hb] at h
      have hk : k = kv.1 := eq_of_beq hb
      have hv : kv.2 = v := by
        injection h
      have hkv : (k, v) = kv := by
        rw [hk, ← hv]
      rw [hkv]
      exact List.mem_cons_self kv rest

theorem prod_pos_of_all_pos {l : List ℚ} (h : ∀ x ∈ l, 0 < x) : 0 < l.prod := by
  induction l with
  | nil => simp
  | cons a rest ih =>
    rw [List.prod_cons]
    exact mul_pos (h a (List.mem_cons_self a rest))
      (ih (fun x hx => h x (List.mem_cons_of_mem a hx)))

theorem prod_le_one_of_bounds {l : List ℚ} (h0 : ∀ x ∈ l, 0 < x)
    (h1 : ∀ x ∈ l, x ≤ 1) : l.prod ≤ 1 := by
  induction l with
  | nil => simp
  | cons a rest ih =>
    rw [List.prod_cons]
    have hrest : 0 < rest.prod :=
      prod_pos_of_all_pos (fun x hx => h0 x (List.mem_cons_of_mem a hx))
    calc a * rest.prod ≤ 1 * rest.prod := by
          apply mul_le_mul_of_nonneg_right (h1 a (List.mem_cons_self a rest)) (le_of_lt hrest)
      _ = rest.prod := one_mul _
      _ ≤ 1 := ih (fun x hx => h0 x (List.mem_cons_of_mem a hx))
        (fun x hx => h1 x (List.mem_cons_of_mem a hx))

theorem prod_le_of_mem {l : List ℚ} (h0 : ∀ x ∈ l, 0 < x) (h1 : ∀ x ∈ l, x ≤ 1)
    {x : ℚ} (hx : x ∈ l) : l.prod ≤ x := by
  induction l with
  | nil => cases hx
  | cons a rest ih =>
    rw [List.prod_cons]
    have ha : 0 < a := h0 a (List.mem_cons_self a rest)
    have hrest0 : ∀ y ∈ rest, 0 < y := fun y hy => h0 y (List.mem_cons_of_mem a hy)
    have hrest1 : ∀ y ∈ rest, y ≤ 1 := fun y hy => h1 y (List.mem_cons_of_mem a hy)
    rcases List.mem_cons.mp hx with hx | hx
    · subst hx
      calc x * rest.prod
          ≤ x * 1 :=
            mul_le_mul_of_nonneg_left (prod_le_one_of_bounds hrest0 hrest1) (le_of_lt ha)
        _ = x := mul_one x
    · calc a * rest.prod
          ≤ 1 * rest.prod :=
            mul_le_mul_of_nonneg_right (h1 a (List.mem_cons_self a rest))
              (le_of_lt (prod_pos_of_all_pos hrest0))
        _ = rest.prod := one_mul _
        _ ≤ x := ih hrest0 hrest1 hx

/-- The uniform scaling factor one entry of the grouped dict contributes
(every pool belongs to every adaptor under the placeholder membership). -/
def stepFactor (constraints : List (String × ℚ × ℚ)) (e : String × ℚ) : ℚ :=
  match constraints.lookup e.1 with
  | some c => if c.2 < e.2 then c.2 / e.2 else 1
  | none => 1

theorem stepFactor_bounds (constraints : List (String × ℚ × ℚ))
    (hcaps : ∀ c ∈ constraints, 0 < c.2.2) (e : String × ℚ) :
    0 < stepFactor constraints e ∧ stepFactor constraints e ≤ 1 := by
  cases hlk : constraints.lookup e.1 with
  | none =>
    have h1 : stepFactor constraints e = 1 := by simp [stepFactor, hlk]
    rw [h1]
    norm_num
  | some c =>
    have hc : 0 < c.2 := hcaps (e.1, c) (mem_of_lookup_eq_some hlk)
    by_cases hlt : c.2 < e.2
    · have hf : stepFactor constraints e = c.2 / e.2 := by
        simp [stepFactor, hlk, if_pos hlt]
      have he : 0 < e.2 := lt_trans hc hlt
      rw [hf]
      exact ⟨div_pos hc he, le_of_lt ((div_lt_one he).mpr hlt)⟩
    · have hf : stepFactor constraints e = 1 := by
        simp [stepFactor, hlk, if_neg hlt]
      rw [hf]
      norm_num

theorem map_scale_one (ws : List (ℕ × ℚ)) :
    ws.map (fun pw => (pw.1, pw.2 * 1)) = ws := by
  simp

theorem map_scale_comp (ws : List (ℕ × ℚ)) (a b : ℚ) :
    (ws.map (fun pw => (pw.1, pw.2 * a))).map (fun pw => (pw.1, pw.2 * b))
      = ws.map (fun pw => (pw.1, pw.2 * (a * b))) := by
  rw [List.map_map]
  simp [Function.comp, mul_assoc]

theorem scalePass_eq (constraints : List (String × ℚ × ℚ))
    (hcaps : ∀ c ∈ constraints, 0 < c.2.2) :
    ∀ (aw : List (String × ℚ)) (ws : List (ℕ × ℚ)),
      scalePass constraints aw ws
        = Except.ok (ws.map (fun pw =>
            (pw.1, pw.2 * (aw.map (stepFactor constraints)).prod))) := by
  intro aw
  induction aw with
  | nil =>
    intro ws
    simp [scalePass, map_scale_one]
  | cons e rest ih =>
    intro ws
    cases hlk : constraints.lookup e.1 with
    | none =>
      simp only [scalePass, hlk]
      rw [ih]
      have hf : stepFactor constraints e = 1 := by simp [stepFactor, hlk]
      rw [List.map_cons, List.prod_cons, hf, one_mul]
    | some c =>
      have hc : 0 < c.2 := hcaps (e.1, c) (mem_of_lookup_eq_some hlk)
      by_cases hlt : c.2 < e.2
      · have hne : e.2 ≠ 0 := ne_of_gt (lt_trans hc hlt)
        simp only [scalePass, hlk, if_pos hlt, pyDiv, if_neg hne]
        have hmap : (ws.map (fun pw =>
            if is_pool_in_adaptor pw.1 e.1 then (pw.1, pw.2 * (c.2 / e.2)) else pw))
            = ws.map (fun pw => (pw.1, pw.2 * (c.2 / e.2))) := rfl
        rw [hmap, ih, map_scale_comp]
        have hf : stepFactor constraints e = c.2 / e.2 := by
          simp [stepFactor, hlk, if_pos hlt]
        rw [List.map_cons, List.prod_cons, hf]
      · simp only [scalePass, hlk, if_neg hlt]
        rw [ih]
        have hf : stepFactor constraints e = 1 := by
          simp [stepFactor, hlk, if_neg hlt]
        rw [List.map_cons, List.prod_cons, hf, one_mul]

theorem sum_map_mul_const (l : List ℚ) (c : ℚ) : (l.map (· * c)).sum = l.sum * c := by
  induction l with
  | nil => simp
  | cons a rest ih => simp [ih, add_mul]

theorem snd_map_scale (ws : List (ℕ × ℚ)) (c : ℚ) :
    (ws.map (fun pw => (pw.1, pw.2 * c))).map (·.2) = (ws.map (·.2)).map (· * c) := by
  rw [List.map_map, List.map_map]
  rfl

theorem memberSum_eq_total (ws : List (ℕ × ℚ)) (a : String) :
    memberSum ws a = (ws.map (·.2)).sum := by
  simp [memberSum, is_pool_in_adaptor]

theorem snd_map_div (ws : List (ℕ × ℚ)) (c : ℚ) :
    (ws.map (fun pw => (pw.1, pw.2 / c))).map (·.2) = (ws.map (·.2)).map (· / c) := by
  rw [List.map_map, List.map_map]
  rfl

/-- C1 (amended): for weights of positive total and strictly positive caps,
the scaling pass of `_apply_adaptor_constraints` produces an intermediate
weight map whose per-adaptor summed member weight respects every configured
cap, and after the final renormalization the total of all output weights is
exactly 1 — but the renormalization step can push adaptor sums back above
their caps, so the cap bound only holds before it. -/
theorem apply_adaptor_constraints_amended (weights : List (ℕ × ℚ))
    (constraints : List (String × ℚ × ℚ)) (adaptors : List String)
    (hpos : 0 < (weights.map (·.2)).sum)
    (hcaps : ∀ c ∈ constraints, 0 < c.2.2) :
    ∃ mid out,
      scalePass constraints (adaptorWeights weights adaptors) weights = Except.ok mid ∧
      (∀ a ∈ adaptors, ∀ mn mx, constraints.lookup a = some (mn, mx) →
        memberSum mid a ≤ mx) ∧
      apply_adaptor_constraints weights constraints adaptors = Except.ok out ∧
      (out.map (·.2)).sum = 1 := by
  have hne : weights ≠ [] := by
    intro h
    rw [h] at hpos
    simp at hpos
  have hscale := scalePass_eq constraints hcaps (adaptorWeights weights adaptors) weights
  set P := ((adaptorWeights weights adaptors).map (stepFactor constraints)).prod with hPdef
  set mid := weights.map (fun pw => (pw.1, pw.2 * P)) with hmiddef
  have hfac0 : ∀ x ∈ (adaptorWeights weights adaptors).map (stepFactor constraints),
      0 < x := by
    intro x hx
    obtain ⟨e, _, rfl⟩ := List.mem_map.mp hx
    exact (stepFactor_bounds constraints hcaps e).1
  have hfac1 : ∀ x ∈ (adaptorWeights weights adaptors).map (stepFactor constraints),
      x ≤ 1 := by
    intro x hx
    obtain ⟨e, _, rfl⟩ := List.mem_map.mp hx
    exact (stepFactor_bounds constraints hcaps e).2
  have hP0 : 0 < P := prod_pos_of_all_pos hfac0
  have hmid : ((mid.map (·.2)).sum) = (weights.map (·.2)).sum * P := by
    rw [hmiddef, snd_map_scale, sum_map_mul_const]
  have htot : 0 < (mid.map (·.2)).sum := by
    rw [hmid]
    exact mul_pos hpos hP0
  have happly : apply_adaptor_constraints weights constraints adaptors
      = Except.ok (mid.map (fun pw => (pw.1, pw.2 / (mid.map (·.2)).sum))) := by
    unfold apply_adaptor_constraints
    rw [hscale]
    show Except.ok (if 0 < (mid.map (·.2)).sum
        then mid.map (fun pw => (pw.1, pw.2 / (mid.map (·.2)).sum)) else mid) = _
    rw [if_pos htot]
  refine ⟨mid, mid.map (fun pw => (pw.1, pw.2 / (mid.map (·.2)).sum)),
    hscale, ?_, happly, ?_⟩
  · intro a ha mn mx hlkc
    rw [memberSum_eq_total, hmid]
    have hmx : 0 < mx := hcaps (a, mn, mx) (mem_of_lookup_eq_some hlkc)
    have hAW := lookup_adaptorWeights adaptors a ha weights hne
    have hmemAW : (a, (adaptors.count a : ℚ) * (weights.map (·.2)).sum)
        ∈ adaptorWeights weights adaptors := mem_of_lookup_eq_some hAW
    have hfmem : stepFactor constraints (a, (adaptors.count a : ℚ) * (weights.map (·.2)).sum)
        ∈ (adaptorWeights weights adaptors).map (stepFactor constraints) :=
      List.mem_map.mpr ⟨_, hmemAW, rfl⟩
    have hPf := prod_le_of_mem hfac0 hfac1 hfmem
    have hcnt : (1 : ℚ) ≤ (adaptors.count a : ℚ) := by
      have := List.count_pos_iff.mpr ha
      exact_mod_cast this
    have hScw : (weights.map (·.2)).sum
        ≤ (adaptors.count a : ℚ) * (weights.map (·.2)).sum := by
      calc (weights.map (·.2)).sum = 1 * (weights.map (·.2)).sum := (one_mul _).symm
        _ ≤ (adaptors.count a : ℚ) * (weights.map (·.2)).sum :=
          mul_le_mul_of_nonneg_right hcnt (le_of_lt hpos)
    have hstep : (weights.map (·.2)).sum
        * stepFactor constraints (a, (adaptors.count a : ℚ) * (weights.map (·.2)).sum)
        ≤ mx := by
      have hcw0 : 0 < (adaptors.count a : ℚ) * (weights.map (·.2)).sum :=
        lt_of_lt_of_le hpos hScw
      by_cases hlt : mx < (adaptors.count a : ℚ) * (weights.map (·.2)).sum
      · have hf : stepFactor constraints (a, (adaptors.count a : ℚ) * (weights.map (·.2)).sum)
            = mx / ((adaptors.count a : ℚ) * (weights.map (·.2)).sum) := by
          simp [stepFactor, hlkc, if_pos hlt]
        rw [hf]
        have heq : (weights.map (·.2)).sum
            * (mx / ((adaptors.count a : ℚ) * (weights.map (·.2)).sum))
            = mx * ((weights.map (·.2)).sum
                / ((adaptors.count a : ℚ) * (weights.map (·.2)).sum)) := by
          ring
        rw [heq]
        calc mx * ((weights.map (·.2)).sum
              / ((adaptors.count a : ℚ) * (weights.map (·.2)).sum))
            ≤ mx * 1 :=
              mul_le_mul_of_nonneg_left ((div_le_one hcw0).mpr hScw) (le_of_lt hmx)
          _ = mx := mul_one mx
      · have hf : stepFactor constraints (a, (adaptors.count a : ℚ) * (weights.map (·.2)).sum)
            = 1 := by
          simp [stepFactor, hlkc, if_neg hlt]
        rw [hf, mul_one]
        exact le_trans hScw (not_lt.mp hlt)
    calc (weights.map (·.2)).sum * P
        ≤ (weights.map (·.2)).sum
          * stepFactor constraints (a, (adaptors.count a : ℚ) * (weights.map (·.2)).sum) :=
          mul_le_mul_of_nonneg_left hPf (le_of_lt hpos)
      _ ≤ mx := hstep
  · rw [snd_map_div]
    have heq : ((mid.map (·.2)).map (· / (mid.map (·.2)).sum))
        = (mid.map (·.2)).map (· * ((mid.map (·.2)).sum)⁻¹) := by
      simp [div_eq_mul_inv]
    rw [heq, sum_map_mul_const]
    exact mul_inv_cancel₀ (ne_of_gt htot)

/-- Witness for C1 at one pool of weight 1 and one adaptor capped at 1. -/
theorem apply_adaptor_constraints_amended_witness :
    ∃ mid out,
      scalePass [("X", 0, 1)] (adaptorWeights [(1, 1)] ["X"]) [(1, 1)] = Except.ok mid ∧
      (∀ a ∈ ["X"], ∀ mn mx, ([("X", (0 : ℚ), (1 : ℚ))].lookup a) = some (mn, mx) →
        memberSum mid a ≤ mx) ∧
      apply_adaptor_constraints [(1, 1)] [("X", 0, 1)] ["X"] = Except.ok out ∧
      (out.map (·.2)).sum = 1 := by
  have h := apply_adaptor_constraints_amended [(1, 1)] [("X", 0, 1)] ["X"]
    (by norm_num) (by decide)
  exact h

/-! ### Optimizer state and the market-data pipeline

Embeds `Optimizer.update_vault`, `Optimizer.update_market_data`,
`Optimizer._get_adaptor_constraints`, `Optimizer._prepare_returns` and
`Optimizer.handle_market_data` (optimizer.py lines 137-714).  Identifiers
are numeric, so the `str()` normalization used for comparisons collapses to
plain equality.  The riskfolio solver (`port.optimization`) is the external
black-box capability, a `SolveOracle` parameter; `Except.error` stands for
any exception it raises.  Python exceptions caught by the enclosing
`try/except` become error-status results. -/

/-- An APY cell: a numeric value, an infinity, or a NaN/non-numeric value
(the coercion target of `pd.to_numeric(errors='coerce')`). -/
inductive Cell where
  | num (q : ℚ)
  | nanv
  | infv
deriving DecidableEq

structure PerfRow where
  ts : ℤ
  apy : Cell
deriving DecidableEq

structure PerfRecord where
  pool_id : ℕ
  created_at : ℤ
  apy : Cell
deriving DecidableEq

structure VaultInfo where
  pool_id : ℕ
  strategy : String
  allowed_pools : List ℕ
  adaptors : List String
  weight : List ℚ
deriving DecidableEq

structure VaultEntry where
  vault_info : VaultInfo
  current_allocation : List (ℕ × ℚ)
deriving DecidableEq

structure OptimizerState where
  vaults : List (ℕ × VaultEntry)
  market_data : List (ℕ × List PerfRow)
deriving DecidableEq

/-- Embeds `Optimizer.update_vault`: create the vault with an empty allocation, or
replace only its `vault_info` when it already exists. -/
def update_vault (st : OptimizerState) (vi : VaultInfo) : OptimizerState :=
  if (st.vaults.lookup vi.pool_id).isSome then
    { st with vaults := st.vaults.map (fun kv =>
        if kv.1 = vi.pool_id then (kv.1, ⟨vi, kv.2.current_allocation⟩) else kv) }
  else
    { st with vaults := st.vaults ++ [(vi.pool_id, ⟨vi, []⟩)] }

/-- NaN APY values are replaced by 0 on ingestion (`update_market_data`). -/
def sanitizeNan : Cell → Cell
  | Cell.nanv => Cell.num 0
  | c => c

/-- Embeds `Optimizer.update_market_data`: append the new performance row to the
pool's series, creating the series if absent. -/
def update_market_data (st : OptimizerState) (r : PerfRecord) : OptimizerState :=
  if (st.market_data.lookup r.pool_id).isSome then
    { st with market_data := st.market_data.map (fun kv =>
        if kv.1 = r.pool_id then (kv.1, kv.2 ++ [⟨r.created_at, sanitizeNan r.apy⟩]) else kv) }
  else
    { st with market_data := st.market_data ++ [(r.pool_id, [⟨r.created_at, sanitizeNan r.apy⟩])] }

/-- Embeds `Optimizer._get_adaptor_constraints`: empty on missing configuration or
an adaptor/weight length mismatch; otherwise each distinct adaptor (every
pool belongs to every adaptor under the placeholder membership) is capped
at `weight[adaptors.index(adaptor)] / 100`. -/
def get_adaptor_constraints (vi : VaultInfo)  : List (String × ℚ × ℚ) :=
  if vi.adaptors.isEmpty ∨ vi.weight.isEmpty ∨ vi.allowed_pools.isEmpty then []
  else if vi.adaptors.length ≠ vi.weight.length then []
  else vi.adaptors.dedup.map (fun a =>
    (a, 0, (vi.weight.getD (vi.adaptors.indexOf a) 0) / 100))

/-- Insert an integer into an ascending-sorted list. -/
def insertAscZ (x : ℤ) : List ℤ → List ℤ
  | [] => [x]
  | y :: ys => if x ≤ y then x :: y :: ys else y :: insertAscZ x ys

/-- Sort a list of integers in ascending order (a pandas index sort). -/
def sortAscZ (l : List ℤ) : List ℤ := l.foldr insertAscZ []

/-- Per-pool series preparation inside `_prepare_returns`: coerce to
numeric and drop NaN values, then keep the last value of each duplicate
timestamp, index sorted ascending (`groupby(index).last()`). -/
def poolSeries (rows : List PerfRow) : List (ℤ × Cell) :=
  let valid := rows.filter (fun r => r.apy ≠ Cell.nanv)
  let tss := sortAscZ ((valid.map (·.ts)).dedup)
  tss.filterMap (fun t =>
    match (valid.filter (fun r => r.ts = t)).getLast? with
    | some r => some (t, r.apy)
    | none => none)

/-- Embeds `Optimizer._prepare_returns`: filter market data to the allowed pools,
build each pool's cleaned series (skipping pools with no valid value), and
outer-join the series on the sorted union of their timestamps — `none`
cells are the NaN values introduced by the alignment.  The result is the
column list and the aligned rows; `([], [])` is the empty DataFrame
returned on every error path. -/
def prepare_returns (market_data : List (ℕ × List PerfRow)) (allowed_pools : List ℕ) :
    List ℕ × List (ℤ × List (Option Cell)) :=
  if market_data.isEmpty ∨ allowed_pools.isEmpty then ([], [])
  else
    let cols := (market_data.filter (fun kv => kv.1 ∈ allowed_pools)).filterMap (fun kv =>
      let s := poolSeries kv.2
      if s.isEmpty then none else some (kv.1, s))
    if cols.isEmpty then ([], [])
    else
      let tss := sortAscZ (((cols.map (fun c => c.2.map (·.1))).flatten).dedup)
      let rows := tss.map (fun t => (t, cols.map (fun c => c.2.lookup t)))
      if rows.length < 1 then ([], []) else (cols.map (·.1), rows)

/-- Embeds `DataFrame.empty` for the aligned matrix. -/
def matrixEmpty (m : List ℕ × List (ℤ × List (Option Cell))) : Bool :=
  m.1.isEmpty || m.2.isEmpty

/-- A cell the NaN/Inf guard objects to: missing after alignment, NaN, or
infinite. -/
def cellBad : Option Cell → Bool
  | none => true
  | some Cell.nanv => true
  | some Cell.infv => true
  | some (Cell.num _) => false

/-- Embeds `returns.replace([inf, -inf], nan).dropna()`: keep fully numeric rows. -/
def rowsClean (rows : List (ℤ × List (Option Cell))) : List (ℤ × List (Option Cell)) :=
  rows.filter (fun r => r.2.all (fun c => !cellBad c))

/-- Embeds `returns.isna().any().any() or isinf(returns.values).any()`. -/
def hasBadCell (rows : List (ℤ × List (Option Cell))) : Bool :=
  rows.any (fun r => r.2.any cellBad)

/-- The external convex-solver capability (`riskfolio.Portfolio.optimization`):
objective name, matrix columns and aligned numeric rows to a weight dict,
or a raised exception. -/
def SolveOracle : Type :=
  String → List ℕ → List (ℤ × List (Option Cell)) → Except String (List (ℕ × ℚ))

/-- A `handle_market_data` return dict: the reported pool id, `status`, and
the computed allocation when present. -/
structure HMDResult where
  pool_id : Option ℕ
  status : String
  allocation : Option (List (ℕ × ℚ))
deriving DecidableEq

/-- The shape of the Python value held by the local variable `vault_data`
when the optimization block at optimizer.py line 511 starts: `None`, a
`vault_info` dict, or a whole vault entry (the loop at line 483 rebinds
`vault_data` to the last vault's entry dict). -/
inductive VaultDataArg where
  | noneArg
  | infoArg (vi : VaultInfo)
  | entryArg (e : VaultEntry)
deriving DecidableEq

/-- The per-vault optimization block (optimizer.py lines 527-714) once the
vault id is known: registry lookup, adaptor constraints, market-data
availability, returns preparation, the NaN/Inf guard, strategy dispatch,
the solver call, constraint application, denomination by the current total
(default 1.0), and the wholesale `current_allocation` replacement on
success.  Every caught exception or validation failure returns an
error-status result and leaves the state untouched. -/
def run_pipeline_core (solve : SolveOracle) (st : OptimizerState) (pool_id : ℕ) :
    OptimizerState × HMDResult :=
  match st.vaults.lookup pool_id with
  | none => (st, ⟨some pool_id, "error", none⟩)
  | some vault =>
    if (get_adaptor_constraints vault.vault_info).isEmpty then
      (st, ⟨some pool_id, "error", none⟩)
    else if ¬ (vault.vault_info.allowed_pools.filter
        (fun p => (st.market_data.lookup p).isNone)).isEmpty then
      (st, ⟨some pool_id, "error", none⟩)
    else if matrixEmpty (prepare_returns st.market_data vault.vault_info.allowed_pools) then
      (st, ⟨some pool_id, "error", none⟩)
    else if hasBadCell (prepare_returns st.market_data vault.vault_info.allowed_pools).2
        ∧ ((rowsClean (prepare_returns st.market_data vault.vault_info.allowed_pools).2).isEmpty
           ∨ (rowsClean (prepare_returns st.market_data vault.vault_info.allowed_pools).2).length < 2) then
      (st, ⟨some pool_id, "error", none⟩)
    else
      match (if vault.vault_info.strategy = "min_risk" then some "MinRisk"
             else if vault.vault_info.strategy = "max_sharpe" then some "Sharpe"
             else none) with
      | none => (st, ⟨some pool_id, "error", none⟩)
      | some obj =>
        match solve obj (prepare_returns st.market_data vault.vault_info.allowed_pools).1
            (if hasBadCell (prepare_returns st.market_data vault.vault_info.allowed_pools).2
             then rowsClean (prepare_returns st.market_data vault.vault_info.allowed_pools).2
             else (prepare_returns st.market_data vault.vault_info.allowed_pools).2) with
        | Except.error _ => (st, ⟨some pool_id, "error", none⟩)
        | Except.ok weights_dict =>
          match apply_adaptor_constraints weights_dict
              (get_adaptor_constraints vault.vault_info) vault.vault_info.adaptors with
          | Except.error _ => (st, ⟨some pool_id, "error", none⟩)
          | Except.ok constrained =>
            let total := if (vault.current_allocation.map (·.2)).sum ≤ 0 then 1
              else (vault.current_allocation.map (·.2)).sum
            let new_allocation := constrained.map (fun pw => (pw.1, pw.2 * total))
            ({ st with vaults := st.vaults.map (fun kv =>
                if kv.1 = pool_id then (kv.1, ⟨kv.2.vault_info, new_allocation⟩) else kv) },
             ⟨some pool_id, "success", some new_allocation⟩)

/-- The vault-id resolution at optimizer.py lines 513-525: a `None`
`vault_data` raises inside the `try` (caught into an error result carrying
the ambient `pool_id` when one is bound), an entry dict is unwrapped to its
`vault_info`, and a `vault_info` dict supplies `pool_id` directly. -/
def run_pipeline (solve : SolveOracle) (st : OptimizerState)
    (vault_data : VaultDataArg) (pool_env : Option ℕ) : OptimizerState × HMDResult :=
  match vault_data with
  | VaultDataArg.noneArg => (st, ⟨pool_env, "error", none⟩)
  | VaultDataArg.entryArg e => run_pipeline_core solve st e.vault_info.pool_id
  | VaultDataArg.infoArg vi => run_pipeline_core solve st vi.pool_id

/-- Embeds `Optimizer.handle_market_data`.  With market data: ingest the record,
collect the vaults whose `allowed_pools` contain the updated pool id
(string-normalized comparison), reoptimize each of them through the
recursive `handle_market_data(None, vault_info)` call (collecting the
per-vault results in a map the source then discards), and then — because
the scan loop leaves the local `vault_data` bound to the last registry
entry — run the optimization block once more for that last vault and
return its result.  Without market data: update the vault if given and run
the optimization block for it.  The returned triple is the final state,
the returned result dict, and the collected (discarded) cascade map. -/
def handle_market_data (solve : SolveOracle) (st : OptimizerState)
    (data : Option PerfRecord) (vault_data : Option VaultInfo) :
    OptimizerState × HMDResult × List (ℕ × HMDResult) :=
  match data with
  | none =>
    let st1 := match vault_data with
      | some vi => update_vault st vi
      | none => st
    let arg := match vault_data with
      | some vi => VaultDataArg.infoArg vi
      | none => VaultDataArg.noneArg
    let out := run_pipeline solve st1 arg none
    (out.1, out.2, [])
  | some r =>
    let st1 := update_market_data st r
    let affected := (st1.vaults.filter
      (fun kv => r.pool_id ∈ kv.2.vault_info.allowed_pools)).map (·.1)
    let vd_after_loop : VaultDataArg :=
      match st1.vaults.getLast? with
      | some kv => VaultDataArg.entryArg kv.2
      | none => match vault_data with
        | some vi => VaultDataArg.infoArg vi
        | none => VaultDataArg.noneArg
    let folded := affected.foldl
      (fun (acc : OptimizerState × List (ℕ × HMDResult)) vid =>
        match acc.1.vaults.lookup vid with
        | none => acc
        | some e =>
          let st' := update_vault acc.1 e.vault_info
          let out := run_pipeline solve st' (VaultDataArg.infoArg e.vault_info) none
          (out.1, acc.2 ++ [(vid, out.2)]))
      (st1, [])
    let st3 := match vd_after_loop with
      | VaultDataArg.infoArg vi => update_vault folded.1 vi
      | VaultDataArg.entryArg e => update_vault folded.1 e.vault_info
      | VaultDataArg.noneArg => folded.1
    let out := run_pipeline solve st3 vd_after_loop (some r.pool_id)
    (out.1, out.2, folded.2)

theorem lookup_map_adjust {α β : Type} [DecidableEq α] [BEq α] [LawfulBEq α]
    (f : β → β) (k0 : α) :
    ∀ (l : List (α × β)) (k : α),
      ((l.map (fun kv => if kv.1 = k0 then (kv.1, f kv.2) else kv)).lookup k)
        = (l.lookup k).map (fun v => if k = k0 then f v else v) := by
  intro l
  induction l with
  | nil => intro k; by_cases h : k = k0 <;> simp [List.lookup]
  | cons kv rest ih =>
    intro k
    by_cases h1 : kv.1 = k0
    · rw [List.map_cons, if_pos h1]
      by_cases h2 : k = k0
      · have hb : (k == kv.1) = true := beq_iff_eq.mpr (h2.trans h1.symm)
        simp [List.lookup, hb, if_pos h2]
      · have hb : (k == kv.1) = false := beq_eq_false_iff_ne.mpr (fun he => h2 (he.trans h1))
        simp only [List.lookup, hb]
        simpa [h2] using ih k
    · rw [List.map_cons, if_neg h1]
      by_cases h3 : k = kv.1
      · have hb : (k == kv.1) = true := beq_iff_eq.mpr h3
        have h2 : ¬ (k = k0) := fun he => h1 (h3.symm.trans he)
        simp [List.lookup, hb, if_neg h2]
      · have hb : (k == kv.1) = false := beq_eq_false_iff_ne.mpr h3
        simp only [List.lookup, hb]
        exact ih k

theorem lookup_isSome_of_mem {α β : Type} [BEq α] [LawfulBEq α]
    {l : List (α × β)} {kv : α × β} (h : kv ∈ l) : (l.lookup kv.1).isSome := by
  induction l with
  | nil => cases h
  | cons hd rest ih =>
    rw [List.lookup]
    cases hb : kv.1 == hd.1
    · rcases List.mem_cons.mp h with h' | h'
      · exfalso
        rw [h'] at hb
        simp at hb
      · exact ih h'
    · simp

theorem update_vault_preserves_alloc (st : OptimizerState) (vi : VaultInfo)
    (pid : ℕ) (e : VaultEntry) (h : st.vaults.lookup pid = some e) :
    ∃ e', (update_vault st vi).vaults.lookup pid = some e' ∧
      e'.current_allocation = e.current_allocation := by
  by_cases hex : (st.vaults.lookup vi.pool_id).isSome
  · have hst : update_vault st vi = { st with vaults := st.vaults.map (fun kv =>
        if kv.1 = vi.pool_id then (kv.1, ⟨vi, kv.2.current_allocation⟩) else kv) } := by
      unfold update_vault
      rw [if_pos hex]
    rw [hst]
    have hlk := lookup_map_adjust
      (fun e : VaultEntry => (⟨vi, e.current_allocation⟩ : VaultEntry))
      vi.pool_id st.vaults pid
    refine ⟨if pid = vi.pool_id then ⟨vi, e.current_allocation⟩ else e, ?_, ?_⟩
    · show ((st.vaults.map (fun kv =>
        if kv.1 = vi.pool_id then (kv.1, ⟨vi, kv.2.current_allocation⟩) else kv)).lookup pid)
        = _
      rw [hlk, h]
      rfl
    · by_cases hp : pid = vi.pool_id <;> simp [hp]
  · have hst : update_vault st vi
        = { st with vaults := st.vaults ++ [(vi.pool_id, ⟨vi, []⟩)] } := by
      unfold update_vault
      rw [if_neg hex]
    rw [hst]
    refine ⟨e, ?_, rfl⟩
    show ((st.vaults ++ [(vi.pool_id, (⟨vi, []⟩ : VaultEntry))]).lookup pid) = some e
    rw [lookup_cons_of_append, h]

theorem update_vault_lookup_isSome (st : OptimizerState) (vi : VaultInfo) (k : ℕ)
    (h : (st.vaults.lookup k).isSome) :
    ((update_vault st vi).vaults.lookup k).isSome := by
  obtain ⟨e, he⟩ := Option.isSome_iff_exists.mp h
  obtain ⟨e', he', _⟩ := update_vault_preserves_alloc st vi k e he
  simp [he']

/-- Case analysis for one run of the optimization block: either it fails,
returning an error result and the state untouched, or it succeeds and the
only state change is the wholesale replacement of the target vault's
`current_allocation`. -/
theorem run_pipeline_core_cases (solve : SolveOracle) (st : OptimizerState) (pool_id : ℕ) :
    ((run_pipeline_core solve st pool_id).1 = st ∧
      (run_pipeline_core solve st pool_id).2.status = "error") ∨
    ((run_pipeline_core solve st pool_id).2.status = "success" ∧
      ∃ na, (run_pipeline_core solve st pool_id).1
        = { st with vaults := st.vaults.map (fun kv =>
            if kv.1 = pool_id then (kv.1, ⟨kv.2.vault_info, na⟩) else kv) }) := by
  unfold run_pipeline_core
  split
  · exact Or.inl ⟨rfl, rfl⟩
  · split
    · exact Or.inl ⟨rfl, rfl⟩
    · split
      · exact Or.inl ⟨rfl, rfl⟩
      · split
        · exact Or.inl ⟨rfl, rfl⟩
        · split
          · exact Or.inl ⟨rfl, rfl⟩
          · split
            · exact Or.inl ⟨rfl, rfl⟩
            · split
              · exact Or.inl ⟨rfl, rfl⟩
              · split
                · exact Or.inl ⟨rfl, rfl⟩
                · exact Or.inr ⟨rfl, ⟨_, rfl⟩⟩

theorem run_pipeline_core_lookup_isSome (solve : SolveOracle) (st : OptimizerState)
    (pool_id k : ℕ) (h : (st.vaults.lookup k).isSome) :
    (((run_pipeline_core solve st pool_id).1).vaults.lookup k).isSome := by
  rcases run_pipeline_core_cases solve st pool_id with ⟨hst, _⟩ | ⟨_, na, hst⟩
  · rw [hst]
    exact h
  · rw [hst]
    obtain ⟨e, he⟩ := Option.isSome_iff_exists.mp h
    have := lookup_map_adjust (fun v : VaultEntry => (⟨v.vault_info, na⟩ : VaultEntry))
      pool_id st.vaults k
    simp only [this, he]
    simp

/-- C2 (amended): a non-cascading invocation of the optimization pipeline
(`handle_market_data` without market data) that returns an error-status
result leaves every registered vault's `current_allocation` exactly as it
was before the call; a cascading invocation, by contrast, can return an
error-status result after its successful inner reoptimizations have
already replaced affected vaults' allocations. -/
theorem handle_market_data_error_preserves_alloc (solve : SolveOracle)
    (st : OptimizerState) (vault_data : Option VaultInfo)
    (herr : (handle_market_data solve st none vault_data).2.1.status = "error")
    (pid : ℕ) (e : VaultEntry) (hpid : st.vaults.lookup pid = some e) :
    ∃ e', (handle_market_data solve st none vault_data).1.vaults.lookup pid = some e' ∧
      e'.current_allocation = e.current_allocation := by
  cases vault_data with
  | none => exact ⟨e, hpid, rfl⟩
  | some vi =>
    have hh : handle_market_data solve st none (some vi)
        = ((run_pipeline_core solve (update_vault st vi) vi.pool_id).1,
           (run_pipeline_core solve (update_vault st vi) vi.pool_id).2, []) := rfl
    obtain ⟨e1, he1, ha1⟩ := update_vault_preserves_alloc st vi pid e hpid
    rcases run_pipeline_core_cases solve (update_vault st vi) vi.pool_id with
      ⟨hst, _⟩ | ⟨hsucc, _⟩
    · rw [hh, hst]
      exact ⟨e1, he1, ha1⟩
    · exfalso
      have herr' : (run_pipeline_core solve (update_vault st vi) vi.pool_id).2.status
          = "error" := herr
      rw [hsucc] at herr'
      simp at herr'

/-- The example solver oracle: equal unit weight for every column. -/
def exSolve : SolveOracle := fun _ pools _ => Except.ok (pools.map (fun p => (p, 1)))

/-- A vault whose adaptor configuration is missing, so its optimization
always fails at the constraints check. -/
def exBadVault : VaultInfo := ⟨1, "min_risk", [10], [], []⟩

def exStateW : OptimizerState := ⟨[(1, ⟨exBadVault, [(5, 3)]⟩)], []⟩

/-- Witness for C2 at a vault with a broken adaptor configuration and a
pre-existing allocation. -/
theorem handle_market_data_error_preserves_alloc_witness :
    (handle_market_data exSolve exStateW none (some exBadVault)).2.1.status = "error" ∧
    ∃ e', (handle_market_data exSolve exStateW none (some exBadVault)).1.vaults.lookup 1
        = some e' ∧ e'.current_allocation = [(5, 3)] := by
  have h1 : (handle_market_data exSolve exStateW none (some exBadVault)).2.1.status
      = "error" := rfl
  obtain ⟨e', he', ha'⟩ := handle_market_data_error_preserves_alloc exSolve exStateW
    (some exBadVault) h1 1 ⟨exBadVault, [(5, 3)]⟩ rfl
  exact ⟨h1, e', he', by rw [ha']⟩

theorem cascade_fold_spec (solve : SolveOracle) :
    ∀ (ids : List ℕ) (st : OptimizerState) (acc : List (ℕ × HMDResult)),
      (∀ id ∈ ids, (st.vaults.lookup id).isSome) →
      ((ids.foldl (fun (acc : OptimizerState × List (ℕ × HMDResult)) vid =>
          match acc.1.vaults.lookup vid with
          | none => acc
          | some e =>
            let st' := update_vault acc.1 e.vault_info
            let out := run_pipeline solve st' (VaultDataArg.infoArg e.vault_info) none
            (out.1, acc.2 ++ [(vid, out.2)])) (st, acc)).2.map (·.1)
        = acc.map (·.1) ++ ids) ∧
      (∀ k, (st.vaults.lookup k).isSome →
        (((ids.foldl (fun (acc : OptimizerState × List (ℕ × HMDResult)) vid =>
          match acc.1.vaults.lookup vid with
          | none => acc
          | some e =>
            let st' := update_vault acc.1 e.vault_info
            let out := run_pipeline solve st' (VaultDataArg.infoArg e.vault_info) none
            (out.1, acc.2 ++ [(vid, out.2)])) (st, acc)).1).vaults.lookup k).isSome) := by
  intro ids
  induction ids with
  | nil =>
    intro st acc h
    exact ⟨by simp, fun k hk => hk⟩
  | cons id rest ih =>
    intro st acc h
    rw [List.foldl_cons]
    obtain ⟨e, he⟩ := Option.isSome_iff_exists.mp (h id (List.mem_cons_self id rest))
    simp only [he]
    have hkeys : ∀ k, (st.vaults.lookup k).isSome →
        (((run_pipeline solve (update_vault st e.vault_info)
            (VaultDataArg.infoArg e.vault_info) none).1).vaults.lookup k).isSome := by
      intro k hk
      exact run_pipeline_core_lookup_isSome solve (update_vault st e.vault_info)
        e.vault_info.pool_id k (update_vault_lookup_isSome st e.vault_info k hk)
    have hrest : ∀ id' ∈ rest,
        (((run_pipeline solve (update_vault st e.vault_info)
            (VaultDataArg.infoArg e.vault_info) none).1).vaults.lookup id').isSome :=
      fun id' hid' => hkeys id' (h id' (List.mem_cons_of_mem id hid'))
    obtain ⟨hmap, hmono⟩ := ih
      ((run_pipeline solve (update_vault st e.vault_info)
        (VaultDataArg.infoArg e.vault_info) none).1)
      (acc ++ [(id, (run_pipeline solve (update_vault st e.vault_info)
        (VaultDataArg.infoArg e.vault_info) none).2)]) hrest
    constructor
    · rw [hmap]
      simp
    · intro k hk
      exact hmono k (hkeys k hk)

/-- C3 (amended): the cascade's collected result map is keyed by exactly
the vaults whose `allowed_pools` contain the updated pool id, in registry
order — every affected vault is reoptimized and no vault is missing from
the map.  (The source then discards this map, and additionally re-runs the
optimization block for the last-registered vault whether affected or not,
returning that vault's result — see the counterexample.) -/
theorem handle_market_data_cascade_keys (solve : SolveOracle) (st : OptimizerState)
    (r : PerfRecord) (vd : Option VaultInfo) :
    (handle_market_data solve st (some r) vd).2.2.map (·.1)
      = ((update_market_data st r).vaults.filter
          (fun kv => r.pool_id ∈ kv.2.vault_info.allowed_pools)).map (·.1) := by
  have hmem : ∀ id ∈ ((update_market_data st r).vaults.filter
      (fun kv => r.pool_id ∈ kv.2.vault_info.allowed_pools)).map (·.1),
      ((update_market_data st r).vaults.lookup id).isSome := by
    intro id hid
    obtain ⟨kv, hkv, rfl⟩ := List.mem_map.mp hid
    exact lookup_isSome_of_mem (List.mem_of_mem_filter hkv)
  have hspec := (cascade_fold_spec solve
    (((update_market_data st r).vaults.filter
      (fun kv => r.pool_id ∈ kv.2.vault_info.allowed_pools)).map (·.1))
    (update_market_data st r) [] hmem).1
  have h2 : (handle_market_data solve st (some r) vd).2.2.map (·.1)
      = ([] : List (ℕ × HMDResult)).map (·.1)
        ++ ((update_market_data st r).vaults.filter
            (fun kv => r.pool_id ∈ kv.2.vault_info.allowed_pools)).map (·.1) := hspec
  rw [h2]
  simp

/-- C5 (amended): with a registered vault and valid adaptor constraints,
the optimizer aborts with an error result — before any solver call, for
every solver — whenever some allowed pool has no market-data entry at all,
and whenever the aligned return matrix contains a NaN/Inf/missing cell and
fewer than 2 fully numeric rows remain after dropping offending rows.  (A
clean aligned matrix with a single row is NOT rejected: it is handed to
the solver, see the counterexample.) -/
theorem optimizer_abort_conditions (solve : SolveOracle) (st : OptimizerState)
    (pool_id : ℕ) (vault : VaultEntry)
    (hlk : st.vaults.lookup pool_id = some vault)
    (hcons : (get_adaptor_constraints vault.vault_info).isEmpty = false) :
    ((∃ p ∈ vault.vault_info.allowed_pools, st.market_data.lookup p = none) →
      run_pipeline_core solve st pool_id = (st, ⟨some pool_id, "error", none⟩)) ∧
    ((vault.vault_info.allowed_pools.filter
        (fun p => (st.market_data.lookup p).isNone)).isEmpty = true →
      matrixEmpty (prepare_returns st.market_data vault.vault_info.allowed_pools) = false →
      hasBadCell (prepare_returns st.market_data vault.vault_info.allowed_pools).2 = true →
      (rowsClean (prepare_returns st.market_data vault.vault_info.allowed_pools).2).length < 2 →
      run_pipeline_core solve st pool_id = (st, ⟨some pool_id, "error", none⟩)) := by
  constructor
  · rintro ⟨p, hp, hnone⟩
    have hpmem : p ∈ vault.vault_info.allowed_pools.filter
        (fun p => (st.market_data.lookup p).isNone) :=
      List.mem_filter.mpr ⟨hp, by simp [hnone]⟩
    have hfilter : (vault.vault_info.allowed_pools.filter
        (fun p => (st.market_data.lookup p).isNone)).isEmpty = false := by
      cases hf : (vault.vault_info.allowed_pools.filter
          (fun p => (st.market_data.lookup p).isNone)).isEmpty
      · rfl
      · exfalso
        rw [List.isEmpty_iff] at hf
        rw [hf] at hpmem
        cases hpmem
    simp [run_pipeline_core, hlk, hcons, hfilter]
  · intro h1 h2 h3 h4
    simp [run_pipeline_core, hlk, hcons, h1, h2, h3, h4]

def exV1 : VaultInfo := ⟨1, "min_risk", [10], ["A"], [100]⟩

def exV12 : VaultInfo := ⟨2, "min_risk", [10, 20], ["A"], [100]⟩

/-- Vault 2 sees pools 10 and 20 whose single observations are at different
timestamps: the aligned matrix has two rows, each with a missing cell. -/
def exMisalignedState : OptimizerState :=
  ⟨[(2, ⟨exV12, []⟩)], [(10, [⟨1, Cell.num 5⟩]), (20, [⟨2, Cell.num 7⟩])]⟩

/-- Witness for C5: a vault whose allowed pool 10 has no market data aborts,
and a vault whose two pools never share a timestamp (so no clean aligned
row survives) aborts. -/
theorem optimizer_abort_conditions_witness :
    run_pipeline_core exSolve ⟨[(1, ⟨exV1, []⟩)], []⟩ 1
      = (⟨[(1, ⟨exV1, []⟩)], []⟩, ⟨some 1, "error", none⟩) ∧
    run_pipeline_core exSolve exMisalignedState 2
      = (exMisalignedState, ⟨some 2, "error", none⟩) := by
  constructor
  · exact (optimizer_abort_conditions exSolve ⟨[(1, ⟨exV1, []⟩)], []⟩ 1 ⟨exV1, []⟩
      rfl (by decide)).1 ⟨10, by decide, rfl⟩
  · exact (optimizer_abort_conditions exSolve exMisalignedState 2 ⟨exV12, []⟩
      rfl (by decide)).2 (by decide) (by decide) (by decide) (by decide)

def exV3 : VaultInfo := ⟨3, "min_risk", [10, 20], ["A"], [100]⟩

/-- Vault 3's two pools each have one observation at the same timestamp:
the aligned matrix is a single fully numeric row. -/
def exAlignedOneRow : OptimizerState :=
  ⟨[(3, ⟨exV3, []⟩)], [(10, [⟨1, Cell.num 5⟩]), (20, [⟨1, Cell.num 7⟩])]⟩

/-- C5 counterexample: one clean aligned row — fewer than the 2 valid rows
the claim demands — yet the optimizer does not abort: the NaN/Inf guard is
skipped entirely for a clean matrix, the solver is invoked and the run
succeeds. -/
theorem single_row_reaches_solver_counterexample :
    (prepare_returns [(10, [⟨1, Cell.num 5⟩]), (20, [⟨1, Cell.num 7⟩])] [10, 20]).2.length
      = 1 ∧
    (1 : ℕ) < 2 ∧
    (run_pipeline_core exSolve exAlignedOneRow 3).2.status = "success" := by
  refine ⟨by decide, by decide, ?_⟩
  have h7 : apply_adaptor_constraints [(10, 1), (20, 1)] (get_adaptor_constraints exV3)
      exV3.adaptors = Except.ok [(10, 1/2), (20, 1/2)] := by
    norm_num [apply_adaptor_constraints, get_adaptor_constraints, exV3, adaptorWeights,
      addWeight, scalePass, pyDiv, is_pool_in_adaptor, List.lookup]
  have hcore : run_pipeline_core exSolve exAlignedOneRow 3
      = (match apply_adaptor_constraints [(10, 1), (20, 1)]
            (get_adaptor_constraints exV3) exV3.adaptors with
         | Except.error _ => (exAlignedOneRow, ⟨some 3, "error", none⟩)
         | Except.ok constrained =>
            ({ exAlignedOneRow with vaults := exAlignedOneRow.vaults.map (fun kv =>
                if kv.1 = 3 then (kv.1, ⟨kv.2.vault_info,
                  constrained.map (fun pw => (pw.1, pw.2 * 1))⟩) else kv) },
             ⟨some 3, "success", some (constrained.map (fun pw => (pw.1, pw.2 * 1)))⟩)) := rfl
  rw [hcore, h7]

/-- A second vault, unaffected by pool 10 and with a broken (empty) adaptor
configuration, registered last. -/
def exBadVault2 : VaultInfo := ⟨2, "min_risk", [20], [], []⟩

def exRecord : PerfRecord := ⟨10, 2, Cell.num 6⟩

def exC2State : OptimizerState :=
  ⟨[(1, ⟨exV1, []⟩), (2, ⟨exBadVault2, []⟩)], [(10, [⟨1, Cell.num 5⟩])]⟩

/-- State `exC2State` after ingesting `exRecord`. -/
def exST1 : OptimizerState :=
  ⟨[(1, ⟨exV1, []⟩), (2, ⟨exBadVault2, []⟩)],
   [(10, [⟨1, Cell.num 5⟩, ⟨2, Cell.num 6⟩])]⟩

/-- State `exST1` after vault 1's successful cascade reoptimization. -/
def exST2 : OptimizerState :=
  ⟨[(1, ⟨exV1, [(10, (1 : ℚ) * 1)]⟩), (2, ⟨exBadVault2, []⟩)],
   [(10, [⟨1, Cell.num 5⟩, ⟨2, Cell.num 6⟩])]⟩

/-- C2 counterexample: a market update for pool 10 cascades into vault 1,
whose successful inner reoptimization replaces its `current_allocation`;
the invocation then reoptimizes the last-registered vault 2 (broken
configuration) and returns vault 2's error-status result — so an
invocation of `handle_market_data` that returns an error-status result has
nevertheless mutated `current_allocation`. -/
theorem handle_market_data_error_mutation_counterexample :
    (handle_market_data exSolve exC2State (some exRecord) none).2.1.status = "error" ∧
    ((exC2State.vaults.lookup 1).map (fun e => e.current_allocation.map (·.1)))
      = some [] ∧
    (((handle_market_data exSolve exC2State (some exRecord) none).1.vaults.lookup 1).map
      (fun e => e.current_allocation.map (·.1))) = some [10] := by
  have h7a : apply_adaptor_constraints [(10, 1)] (get_adaptor_constraints exV1)
      exV1.adaptors = Except.ok [(10, 1)] := by
    norm_num [apply_adaptor_constraints, get_adaptor_constraints, exV1, adaptorWeights,
      addWeight, scalePass, pyDiv, is_pool_in_adaptor, List.lookup]
  have hV1 : run_pipeline_core exSolve exST1 1
      = (exST2, ⟨some 1, "success", some [(10, (1 : ℚ) * 1)]⟩) := by
    calc run_pipeline_core exSolve exST1 1
        = (match apply_adaptor_constraints [(10, 1)] (get_adaptor_constraints exV1)
              exV1.adaptors with
           | Except.error _ => (exST1, ⟨some 1, "error", none⟩)
           | Except.ok c =>
              ({ exST1 with vaults := exST1.vaults.map (fun kv =>
                  if kv.1 = 1 then (kv.1, ⟨kv.2.vault_info,
                    c.map (fun pw => (pw.1, pw.2 * 1))⟩) else kv) },
               ⟨some 1, "success", some (c.map (fun pw => (pw.1, pw.2 * 1)))⟩)) := rfl
      _ = (exST2, ⟨some 1, "success", some [(10, (1 : ℚ) * 1)]⟩) := by
          rw [h7a]
          rfl
  have hstep : handle_market_data exSolve exC2State (some exRecord) none
      = ((run_pipeline_core exSolve
            (update_vault (run_pipeline_core exSolve exST1 1).1 exBadVault2) 2).1,
         (run_pipeline_core exSolve
            (update_vault (run_pipeline_core exSolve exST1 1).1 exBadVault2) 2).2,
         [(1, (run_pipeline_core exSolve exST1 1).2)]) := rfl
  have hupd : update_vault exST2 exBadVault2 = exST2 := rfl
  have hV2 : run_pipeline_core exSolve exST2 2 = (exST2, ⟨some 2, "error", none⟩) := rfl
  rw [hstep, hV1, hupd, hV2]
  refine ⟨rfl, rfl, rfl⟩

/-- A second vault, unaffected by pool 10, with a valid configuration. -/
def exV2good : VaultInfo := ⟨2, "min_risk", [20], ["B"], [100]⟩

def exC3State : OptimizerState :=
  ⟨[(1, ⟨exV1, []⟩), (2, ⟨exV2good, []⟩)],
   [(10, [⟨1, Cell.num 5⟩]), (20, [⟨1, Cell.num 7⟩, ⟨2, Cell.num 8⟩])]⟩

/-- State `exC3State` after ingesting `exRecord`. -/
def exC3ST1 : OptimizerState :=
  ⟨[(1, ⟨exV1, []⟩), (2, ⟨exV2good, []⟩)],
   [(10, [⟨1, Cell.num 5⟩, ⟨2, Cell.num 6⟩]), (20, [⟨1, Cell.num 7⟩, ⟨2, Cell.num 8⟩])]⟩

/-- State `exC3ST1` after vault 1's successful cascade reoptimization. -/
def exC3ST2 : OptimizerState :=
  ⟨[(1, ⟨exV1, [(10, (1 : ℚ) * 1)]⟩), (2, ⟨exV2good, []⟩)],
   [(10, [⟨1, Cell.num 5⟩, ⟨2, Cell.num 6⟩]), (20, [⟨1, Cell.num 7⟩, ⟨2, Cell.num 8⟩])]⟩

/-- State `exC3ST2` after the extra reoptimization of (unaffected) vault 2. -/
def exC3ST3 : OptimizerState :=
  ⟨[(1, ⟨exV1, [(10, (1 : ℚ) * 1)]⟩), (2, ⟨exV2good, [(20, (1 : ℚ) * 1)]⟩)],
   [(10, [⟨1, Cell.num 5⟩, ⟨2, Cell.num 6⟩]), (20, [⟨1, Cell.num 7⟩, ⟨2, Cell.num 8⟩])]⟩

/-- C3 counterexample: a market update for pool 10 affects only vault 1 and
the collected map is keyed by exactly `[1]` — but vault 2, unaffected, is
reoptimized as well (the returned result is vault 2's, with status success
and vault 2's `current_allocation` freshly replaced), refuting the claim
that no unaffected vault is reoptimized. -/
theorem handle_market_data_unaffected_reopt_counterexample :
    (handle_market_data exSolve exC3State (some exRecord) none).2.2.map (·.1) = [1] ∧
    (handle_market_data exSolve exC3State (some exRecord) none).2.1.pool_id = some 2 ∧
    (handle_market_data exSolve exC3State (some exRecord) none).2.1.status = "success" ∧
    (2 : ℕ) ∉ ([1] : List ℕ) ∧
    ((exC3State.vaults.lookup 2).map (fun e => e.current_allocation.map (·.1)))
      = some [] ∧
    (((handle_market_data exSolve exC3State (some exRecord) none).1.vaults.lookup 2).map
      (fun e => e.current_allocation.map (·.1))) = some [20] := by
  have h7a : apply_adaptor_constraints [(10, 1)] (get_adaptor_constraints exV1)
      exV1.adaptors = Except.ok [(10, 1)] := by
    norm_num [apply_adaptor_constraints, get_adaptor_constraints, exV1, adaptorWeights,
      addWeight, scalePass, pyDiv, is_pool_in_adaptor, List.lookup]
  have h7b : apply_adaptor_constraints [(20, 1)] (get_adaptor_constraints exV2good)
      exV2good.adaptors = Except.ok [(20, 1)] := by
    norm_num [apply_adaptor_constraints, get_adaptor_constraints, exV2good, adaptorWeights,
      addWeight, scalePass, pyDiv, is_pool_in_adaptor, List.lookup]
  have hV1 : run_pipeline_core exSolve exC3ST1 1
      = (exC3ST2, ⟨some 1, "success", some [(10, (1 : ℚ) * 1)]⟩) := by
    calc run_pipeline_core exSolve exC3ST1 1
        = (match apply_adaptor_constraints [(10, 1)] (get_adaptor_constraints exV1)
              exV1.adaptors with
           | Except.error _ => (exC3ST1, ⟨some 1, "error", none⟩)
           | Except.ok c =>
              ({ exC3ST1 with vaults := exC3ST1.vaults.map (fun kv =>
                  if kv.1 = 1 then (kv.1, ⟨kv.2.vault_info,
                    c.map (fun pw => (pw.1, pw.2 * 1))⟩) else kv) },
               ⟨some 1, "success", some (c.map (fun pw => (pw.1, pw.2 * 1)))⟩)) := rfl
      _ = (exC3ST2, ⟨some 1, "success", some [(10, (1 : ℚ) * 1)]⟩) := by
          rw [h7a]
          rfl
  have hV2 : run_pipeline_core exSolve exC3ST2 2
      = (exC3ST3, ⟨some 2, "success", some [(20, (1 : ℚ) * 1)]⟩) := by
    calc run_pipeline_core exSolve exC3ST2 2
        = (match apply_adaptor_constraints [(20, 1)] (get_adaptor_constraints exV2good)
              exV2good.adaptors with
           | Except.error _ => (exC3ST2, ⟨some 2, "error", none⟩)
           | Except.ok c =>
              ({ exC3ST2 with vaults := exC3ST2.vaults.map (fun kv =>
                  if kv.1 = 2 then (kv.1, ⟨kv.2.vault_info,
                    c.map (fun pw => (pw.1, pw.2 * 1))⟩) else kv) },
               ⟨some 2, "success", some (c.map (fun pw => (pw.1, pw.2 * 1)))⟩)) := rfl
      _ = (exC3ST3, ⟨some 2, "success", some [(20, (1 : ℚ) * 1)]⟩) := by
          rw [h7b]
          rfl
  have hstep : handle_market_data exSolve exC3State (some exRecord) none
      = ((run_pipeline_core exSolve
            (update_vault (run_pipeline_core exSolve exC3ST1 1).1 exV2good) 2).1,
         (run_pipeline_core exSolve
            (update_vault (run_pipeline_core exSolve exC3ST1 1).1 exV2good) 2).2,
         [(1, (run_pipeline_core exSolve exC3ST1 1).2)]) := rfl
  have hupd : update_vault exC3ST2 exV2good = exC3ST2 := rfl
  rw [hstep, hV1, hupd, hV2]
  exact ⟨rfl, rfl, rfl, by decide, rfl, rfl⟩

end Colloseum
